import Mathlib

/-!
Verification development for the `levantamento-dados` repository.

The repository has two processors.  `PlanilhaDadosProcessor`
(src/processors/planilha_dados_processor.py) is embedded here from its
source.  `FichaFinanceiraProcessor` is only declared and tested under
src/ (its module is imported by src/processors/__init__.py and exercised
by src/tests/test_ficha_financeira_processor.py, but its source file is
not in the repository snapshot); the definitions for it below are
modelled from the specification, as marked in their doc comments.

Python `decimal.Decimal` values are embedded as a coefficient/exponent
pair (`Dec`), with the default-context arithmetic (28 significant
digits, rounding half to even) implemented over `Int`/`Nat` so that the
kernel can evaluate it.  Monetary amounts inside the spec-modelled
`FichaFinanceiraProcessor` are embedded as `Rat`, following the
specification data model of exact arbitrary-precision decimals.
-/

/-- A (year, month) pair, the time axis of the system. -/
abbrev Period := Nat × Nat

/-- Total order on periods: lexicographic on (year, month). -/
def periodLe (a b : Period) : Prop :=
  a.1 < b.1 ∨ (a.1 = b.1 ∧ a.2 ≤ b.2)

instance : DecidableRel periodLe :=
  fun a b => inferInstanceAs (Decidable (a.1 < b.1 ∨ (a.1 = b.1 ∧ a.2 ≤ b.2)))

instance : IsTotal Period periodLe :=
  ⟨fun a b => by unfold periodLe; omega⟩

instance : IsTrans Period periodLe :=
  ⟨fun a b c => by unfold periodLe; omega⟩

/-- Lookup in an association list keyed by periods (a Python dict whose
keys are (year, month) tuples; `lookupPM m p` is `m.get(p)`). -/
def lookupPM {α : Type} (m : List (Period × α)) (p : Period) : Option α :=
  (m.find? (fun e => e.1 == p)).map (fun e => e.2)

/-- Lookup with a default (`m.get(p, d)` in Python). -/
def getPM {α : Type} (m : List (Period × α)) (p : Period) (d : α) : α :=
  (lookupPM m p).getD d

/-- Key list of a period-keyed association list. -/
def keysPM {α : Type} (m : List (Period × α)) : List Period :=
  m.map (fun e => e.1)

/-- Insert into an association list with Python dict semantics: an
existing key keeps its position and gets the new value, a new key is
appended. -/
def dictInsert {α : Type} (m : List (String × α)) (k : String) (v : α) :
    List (String × α) :=
  if m.any (fun e => e.1 == k) then
    m.map (fun e => if e.1 == k then (k, v) else e)
  else m ++ [(k, v)]

/-- Character for a decimal digit value below ten. -/
def digitChar (n : Nat) : Char := Char.ofNat (48 + n)

/-- Decimal digit characters of a natural number, most significant
first, no leading zeros (zero itself renders as a single digit).  The
first argument is recursion fuel; any fuel above the digit count gives
the full rendering. -/
def natStrAux : Nat → Nat → List Char
  | 0, _ => []
  | fuel + 1, n =>
    if n < 10 then [digitChar n]
    else natStrAux fuel (n / 10) ++ [digitChar (n % 10)]

/-- Decimal digit characters of a natural number. -/
def natStrChars (n : Nat) : List Char := natStrAux (n + 1) n

/-- Decimal rendering of a natural number. -/
def natStr (n : Nat) : String := (natStrChars n).asString

/-- Decimal rendering of an integer (Python `str(int)`). -/
def intStr (n : Int) : String :=
  if n < 0 then "-" ++ natStr n.natAbs else natStr n.natAbs

/-- Number of decimal digits of a natural number (one digit for zero).
The first argument is recursion fuel. -/
def numDigitsAux : Nat → Nat → Nat
  | 0, _ => 0
  | fuel + 1, n => if n < 10 then 1 else numDigitsAux fuel (n / 10) + 1

/-- Number of decimal digits of a natural number (one digit for zero). -/
def numDigits (n : Nat) : Nat := numDigitsAux (n + 1) n

/-- A Python `decimal.Decimal` value: integer coefficient and base-ten
exponent, denoting `c * 10 ^ e`.  The sign lives in the coefficient;
the Python negative zero is not distinguished. -/
structure Dec where
  c : Int
  e : Int
deriving DecidableEq

/-- Rational value denoted by a `Dec`. -/
def Dec.val (d : Dec) : ℚ := (d.c : ℚ) * (10 : ℚ) ^ d.e

/-- Round a nonnegative fraction `n / m` half to even to an integer,
entirely over `Nat`. -/
def roundDivHE (n m : Nat) : Nat :=
  let q := n / m
  let r := n % m
  if 2 * r < m then q
  else if m < 2 * r then q + 1
  else if q % 2 = 0 then q else q + 1

/-- Sign of an integer as a unit (`1` for zero, matching its use on
nonzero coefficients only). -/
def decSign (n : Int) : Int := if n < 0 then -1 else 1

/-- Round a `Dec` to the default Python decimal context: at most 28
significant digits, half to even.  A coefficient already within 28
digits is returned unchanged (context rounding is value-exact there). -/
def roundCtx (d : Dec) : Dec :=
  let a := d.c.natAbs
  if a < 10 ^ 28 then d
  else
    let k := numDigits a - 28
    ⟨decSign d.c * (roundDivHE a (10 ^ k) : Int), d.e + k⟩

/-- Python `Decimal.__add__` under the default context, value-faithful:
exact sum of the two values, rounded to 28 significant digits half to
even.  (Python may normalise the coefficient/exponent pair differently
in exact cases; the denoted value is the same.) -/
def ctxAdd (x y : Dec) : Dec :=
  let e := min x.e y.e
  roundCtx ⟨x.c * (10 : Int) ^ (x.e - e).toNat + y.c * (10 : Int) ^ (y.e - e).toNat, e⟩

/-- Python `Decimal.__truediv__` under the default context,
value-faithful: quotient rounded to 28 significant digits half to even,
exact when the exact quotient fits in 28 digits.  Division by zero
raises in Python; every call site below guards the divisor, and the
zero-divisor branch here returns an arbitrary value.  A zero dividend
yields zero, as in Python. -/
def ctxDiv (x y : Dec) : Dec :=
  if x.c = 0 ∨ y.c = 0 then ⟨0, 0⟩
  else
    let A := x.c.natAbs
    let B := y.c.natAbs
    let s : Int := decSign x.c * decSign y.c
    let shift : Int := 28 + (numDigits B : Int) - (numDigits A : Int)
    let N := A * 10 ^ shift.toNat
    let M := B * 10 ^ (-shift).toNat
    let e0 : Int := x.e - y.e - shift
    if N / M < 10 ^ 28 then ⟨s * (roundDivHE N M : Int), e0⟩
    else ⟨s * (roundDivHE N (10 * M) : Int), e0 + 1⟩

/-- Round a rational half to even to an integer. -/
def roundHEQ (q : ℚ) : Int :=
  let f := ⌊q⌋
  if q - f < 1 / 2 then f
  else if (1 : ℚ) / 2 < q - f then f + 1
  else if f % 2 = 0 then f else f + 1

/-- Floor of the base-ten logarithm of a positive rational (junk on
nonpositive input): the unique `e` with `10 ^ e ≤ q < 10 ^ (e + 1)`. -/
def flog10 (q : ℚ) : Int :=
  let e0 : Int := (numDigits q.num.natAbs : Int) - (numDigits q.den : Int)
  if (10 : ℚ) ^ e0 ≤ q then e0 else e0 - 1

/-- Value-level specification of default-context rounding: round a
rational to 28 significant decimal digits, half to even. -/
def round28Q (q : ℚ) : ℚ :=
  if q = 0 then 0
  else
    let a := |q|
    let e := flog10 a
    let n := roundHEQ (a * (10 : ℚ) ^ (27 - e))
    (if q < 0 then -1 else 1) * (n : ℚ) * (10 : ℚ) ^ (e - 27)

/-- Numeric value of a list of decimal digit characters, most
significant first. -/
def digitsToNat (l : List Char) : Nat :=
  l.foldl (fun a c => 10 * a + (c.toNat - 48)) 0

/-- Parse the exponent part of a decimal literal (the characters after
`e`/`E`): an optional sign followed by at least one digit. -/
def parseExpPart (cs : List Char) : Option Int :=
  let (sgn, rest) : Int × List Char :=
    match cs with
    | '+' :: r => (1, r)
    | '-' :: r => (-1, r)
    | r => (1, r)
  if rest ≠ [] ∧ rest.all Char.isDigit then some (sgn * (digitsToNat rest : Int))
  else none

/-- Core of `decimal.Decimal(str)` for finite numeric literals:
optional sign, digits with an optional fractional part (at least one
digit overall), optional exponent.  Python also accepts the non-finite
literals `NaN` and `Infinity`, which lie outside the Amount data model
of the specification (exact finite decimals) and are not represented
here; they are treated as a failed parse. -/
def parseDecCore (cs : List Char) : Option Dec :=
  let (sgn, cs1) : Int × List Char :=
    match cs with
    | '+' :: r => (1, r)
    | '-' :: r => (-1, r)
    | r => (1, r)
  let intD := cs1.takeWhile Char.isDigit
  let rest1 := cs1.dropWhile Char.isDigit
  match rest1 with
  | [] => if intD = [] then none else some ⟨sgn * (digitsToNat intD : Int), 0⟩
  | '.' :: r2 =>
    let fracD := r2.takeWhile Char.isDigit
    let rest2 := r2.dropWhile Char.isDigit
    if intD = [] ∧ fracD = [] then none
    else
      match rest2 with
      | [] => some ⟨sgn * (digitsToNat (intD ++ fracD) : Int), -(fracD.length : Int)⟩
      | 'e' :: r3 =>
        (parseExpPart r3).map
          (fun ex => ⟨sgn * (digitsToNat (intD ++ fracD) : Int), ex - fracD.length⟩)
      | 'E' :: r3 =>
        (parseExpPart r3).map
          (fun ex => ⟨sgn * (digitsToNat (intD ++ fracD) : Int), ex - fracD.length⟩)
      | _ => none
  | 'e' :: r3 =>
    if intD = [] then none
    else (parseExpPart r3).map (fun ex => ⟨sgn * (digitsToNat intD : Int), ex⟩)
  | 'E' :: r3 =>
    if intD = [] then none
    else (parseExpPart r3).map (fun ex => ⟨sgn * (digitsToNat intD : Int), ex⟩)
  | _ => none

/-- Python `decimal.Decimal(str)`: surrounding whitespace is trimmed
and underscores are removed before parsing; an unparseable string is a
failed construction (`InvalidOperation`, surfaced as `none`). -/
def parseDec (s : String) : Option Dec :=
  parseDecCore ((s.trim.data).filter (fun c => c ≠ '_'))

/-- A run of zero characters. -/
def zeros (k : Nat) : List Char := List.replicate k '0'

/-- Python `format(d, "f")`: the plain (no-exponent) decimal rendering
of a `Dec`.  A nonnegative exponent appends that many zeros; a negative
exponent places the decimal point inside the coefficient digits,
left-padding with zeros when the coefficient is too short.  A zero
coefficient with a nonnegative exponent renders as the single digit
zero (Python appends no exponent zeros there). -/
def formatF (d : Dec) : List Char :=
  let ds := natStrChars d.c.natAbs
  let body :=
    if 0 ≤ d.e then if d.c = 0 then ds else ds ++ zeros d.e.toNat
    else
      let k := (-d.e).toNat
      if k < ds.length then ds.take (ds.length - k) ++ '.' :: ds.drop (ds.length - k)
      else '0' :: '.' :: (zeros (k - ds.length) ++ ds)
  if d.c < 0 then '-' :: body else body

/-- Python `str.rstrip` for a single character: drop every trailing
occurrence of that character. -/
def rstripChar (t : Char) (l : List Char) : List Char :=
  (l.reverse.dropWhile (fun c => c = t)).reverse

/-- Embedding of `PlanilhaDadosProcessor._format_decimal`
(src/processors/planilha_dados_processor.py lines 287-295): `None`
renders as the literal `0`; otherwise the value is rendered with
`format(value, "f")`, and if a decimal point is present trailing zeros
and then a trailing point are stripped, and the decimal point is
replaced by a comma. -/
def formatDecimal (v : Option Dec) : String :=
  match v with
  | none => "0"
  | some d =>
    let text := formatF d
    let text := if '.' ∈ text then rstripChar '.' (rstripChar '0' text) else text
    if text = [] then "0"
    else (text.map (fun c => if c = '.' then ',' else c)).asString

/-- Stated from the specification wording for the shared decimal
rendering rule (spec section 4.4): take the plain decimal rendering
split into integer part and fractional part; a fractional part that is
exactly zero (or absent) is dropped entirely, otherwise its trailing
zero digits are stripped and it is appended after a comma.  Defined
independently of the stripping pipeline of `formatDecimal` above, to be
compared with it. -/
def minimalCommaRender (d : Dec) : String :=
  let ds := natStrChars d.c.natAbs
  let intPart :=
    if 0 ≤ d.e then if d.c = 0 then ds else ds ++ zeros d.e.toNat
    else if (-d.e).toNat < ds.length then ds.take (ds.length - (-d.e).toNat)
    else ['0']
  let fracPart :=
    if 0 ≤ d.e then ([] : List Char)
    else if (-d.e).toNat < ds.length then ds.drop (ds.length - (-d.e).toNat)
    else zeros ((-d.e).toNat - ds.length) ++ ds
  let fracStripped := rstripChar '0' fracPart
  let signed := fun l : List Char => if d.c < 0 then '-' :: l else l
  if fracStripped = [] then (signed intPart).asString
  else (signed (intPart ++ ',' :: fracStripped)).asString

/-- A Python `datetime` cell.  Only year and month are consumed by the
processor (range filtering and `MM/YYYY` rendering), so only they are
carried. -/
structure PyDateTime where
  year : Nat
  month : Nat
deriving DecidableEq

/-- A spreadsheet cell value as produced by `openpyxl` with
`data_only=True`.  A float cell carries its `str()` rendering (the
shortest decimal literal that round-trips, always numeric); a timedelta
cell carries the exact `Decimal` image of its float `total_seconds()`
(every binary float is a finite decimal). -/
inductive CellVal where
  | none
  | dec (d : Dec)
  | int (n : Int)
  | float (s : String)
  | time (hour minute second : Nat)
  | timedelta (ts : Dec)
  | dtime (dt : PyDateTime)
  | str (s : String)
deriving DecidableEq

/-- Embedding of `PlanilhaDadosProcessor._to_decimal`
(src/processors/planilha_dados_processor.py lines 211-231).  `None`
maps to `None`; a `Decimal` is returned unchanged; an int maps to
`Decimal(str(n))`, which is the coefficient `n` at exponent zero; a
float maps to `Decimal(str(v))` over its carried string form; a time
maps to `Decimal(hour) + Decimal(minute)/Decimal(60) +
Decimal(second)/Decimal(3600)` in default-context arithmetic; a
timedelta maps to `Decimal(total_seconds())/Decimal(3600)`; a datetime
falls through to `Decimal(str(value))`, whose `YYYY-MM-DD HH:MM:SS`
rendering never parses, hence `None`; any other value parses its
string form, `None` on failure (`InvalidOperation` is caught). -/
def toDecimal : CellVal → Option Dec
  | .none => Option.none
  | .dec d => some d
  | .int n => some ⟨n, 0⟩
  | .float s => parseDec s
  | .time h m s =>
    some (ctxAdd (ctxAdd ⟨(h : Int), 0⟩ (ctxDiv ⟨(m : Int), 0⟩ ⟨60, 0⟩))
      (ctxDiv ⟨(s : Int), 0⟩ ⟨3600, 0⟩))
  | .timedelta ts => some (ctxDiv ts ⟨3600, 0⟩)
  | .dtime _ => Option.none
  | .str s => parseDec s

/-- Python `cell_value == "NAME"` for a header cell: true exactly for a
string cell holding that text. -/
def cellEqStr (c : CellVal) (s : String) : Bool :=
  match c with
  | .str t => t == s
  | _ => false

/-- Embedding of `PlanilhaDadosProcessor._find_column`: index of the
first header cell equal to the name, `ValueError` otherwise. -/
def findColumn (header : List CellVal) (name : String) : Except String Nat :=
  match header.findIdx? (fun c => cellEqStr c name) with
  | some i => .ok i
  | Option.none => .error ("Coluna nao encontrada no cabecalho: " ++ name)

/-- Embedding of the anchored regular expression
`INDICE(?: HE)?\s*(\d+)%` with `re.IGNORECASE` applied to the stripped
header text (`HE_INDEX_PATTERN.match(value.strip())`): returns the
captured digit group.  The optional literal ` HE` is consumed greedily;
whenever those characters are present the non-consuming alternative
cannot match (the following `\s*(\d+)` would have to start at `H`), so
greedy consumption coincides with regex backtracking. -/
def heIndexPercent (s : String) : Option String :=
  match (s.trim.data).map Char.toUpper with
  | 'I' :: 'N' :: 'D' :: 'I' :: 'C' :: 'E' :: rest =>
    let rest2 :=
      match rest with
      | ' ' :: 'H' :: 'E' :: r => r
      | r => r
    let rest3 := rest2.dropWhile Char.isWhitespace
    let digs := rest3.takeWhile Char.isDigit
    match rest3.dropWhile Char.isDigit with
    | '%' :: _ => if digs = [] then Option.none else some digs.asString
    | _ => Option.none
  | _ => Option.none

/-- Loop of `PlanilhaDadosProcessor._find_he_columns` over the
enumerated header: a string cell matching the HE-index pattern yields
the label `HE <percent>%` paired with the column to its right, which
must exist and hold `FORMULA`, else `ValueError`. -/
def findHeColumnsAux (items : List (Nat × CellVal)) (header : List CellVal) :
    Except String (List (String × Nat)) :=
  match items with
  | [] => .ok []
  | (idx, v) :: rest =>
    match v with
    | .str sv =>
      match heIndexPercent sv with
      | some percent =>
        if idx + 1 < header.length ∧ cellEqStr (header.getD (idx + 1) .none) "FORMULA" then
          (findHeColumnsAux rest header).map
            (fun tl => ("HE " ++ percent ++ "%", idx + 1) :: tl)
        else .error "Coluna de formula nao encontrada ao lado do indice"
      | Option.none => findHeColumnsAux rest header
    | _ => findHeColumnsAux rest header

/-- Embedding of `PlanilhaDadosProcessor._find_he_columns`: the matched
(label, formula-column) pairs in header order; `ValueError` when none
is found. -/
def findHeColumns (header : List CellVal) : Except String (List (String × Nat)) :=
  match findHeColumnsAux header.enum header with
  | .error e => .error e
  | .ok [] => .error "Nenhuma coluna de HE encontrada no cabecalho"
  | .ok l => .ok l

/-- Embedding of `PlanilhaDadosProcessor._find_adc_formula_column`: the
first header cell equal to `INDICE ADC. NOT.` must be followed by a
`FORMULA` cell, whose index is returned. -/
def findAdcAux (items : List (Nat × CellVal)) (header : List CellVal) :
    Except String Nat :=
  match items with
  | [] => .error "Coluna INDICE ADC. NOT. nao encontrada no cabecalho"
  | (idx, v) :: rest =>
    if cellEqStr v "INDICE ADC. NOT." then
      if idx + 1 < header.length ∧ cellEqStr (header.getD (idx + 1) .none) "FORMULA" then
        .ok (idx + 1)
      else .error "Coluna de formula do ADC. NOT. nao localizada"
    else findAdcAux rest header

/-- The `cartoes_labels` computed in `_read_rows`: HE labels plus
`ADIC.NOT`, sorted by column index (Python sorted is stable, as is
insertion sort). -/
def cartoesLabels (heCols : List (String × Nat)) (adcIdx : Nat) : List String :=
  (List.insertionSort (fun a b : String × Nat => a.2 ≤ b.2)
    (heCols ++ [("ADIC.NOT", adcIdx)])).map (fun e => e.1)

/-- Strict lexicographic order on periods, the Python tuple `<`. -/
def periodLt (a b : Period) : Prop :=
  a.1 < b.1 ∨ (a.1 = b.1 ∧ a.2 < b.2)

instance : DecidableRel periodLt :=
  fun a b => inferInstanceAs (Decidable (a.1 < b.1 ∨ (a.1 = b.1 ∧ a.2 < b.2)))

/-- Embedding of `PlanilhaDadosProcessor._is_within_range`: the row
period, as a (year, month) tuple, must not be lexicographically below
the start bound nor above the end bound, each bound optional. -/
def isWithinRange (d : PyDateTime) (startP endP : Option Period) : Bool :=
  (match startP with
   | some sp => !decide (periodLt (d.year, d.month) sp)
   | Option.none => true)
  &&
  (match endP with
   | some ep => !decide (periodLt ep (d.year, d.month))
   | Option.none => true)

/-- Embedding of the dataclass `PlanilhaRow`.  The `he_formulas` dict is
an association list built with Python dict insertion semantics. -/
structure PlanilhaRow where
  periodo : PyDateTime
  remuneracao : Option Dec
  producao : Option Dec
  he_formulas : List (String × Option Dec)
  adc_formula : Option Dec
deriving DecidableEq

/-- Python `value in (None, Decimal("0"))`: absent, or a decimal whose
numeric value is zero (a `Dec` is zero exactly when its coefficient
is). -/
def isNoneOrZero (v : Option Dec) : Bool :=
  match v with
  | Option.none => true
  | some d => d.c == 0

/-- Embedding of `PlanilhaDadosProcessor._has_relevant_data`
(src/processors/planilha_dados_processor.py lines 233-248): false when
every collected value is `None` or zero, false when production, every
HE formula value and the ADC formula are all `None`, true otherwise. -/
def hasRelevantData (remuneracao producao : Option Dec)
    (he : List (String × Option Dec)) (adc : Option Dec) : Bool :=
  let values := [remuneracao, producao, adc] ++ he.map (fun e => e.2)
  if !(values.any (fun v => !(isNoneOrZero v))) then false
  else if producao.isNone && (he.map (fun e => e.2)).all (fun v => v.isNone)
      && adc.isNone then false
  else true

/-- Cell access `excel_row[i]` with `openpyxl` padding: a missing cell
reads as `None`. -/
def getCell (row : List CellVal) (i : Nat) : CellVal := row.getD i CellVal.none

/-- Body of the `_read_rows` loop for one spreadsheet row: skip unless
the period cell is a datetime inside the range; extract the decimal
values; skip when `_has_relevant_data` rejects them. -/
def processRow (periodIdx remIdx prodIdx : Nat) (heCols : List (String × Nat))
    (adcIdx : Nat) (startP endP : Option Period) (row : List CellVal) :
    Option PlanilhaRow :=
  match getCell row periodIdx with
  | .dtime d =>
    if isWithinRange d startP endP then
      let rem := toDecimal (getCell row remIdx)
      let prod := toDecimal (getCell row prodIdx)
      let he := heCols.foldl
        (fun acc lc => dictInsert acc lc.1 (toDecimal (getCell row lc.2))) []
      let adc := toDecimal (getCell row adcIdx)
      if hasRelevantData rem prod he adc then some ⟨d, rem, prod, he, adc⟩
      else Option.none
    else Option.none
  | _ => Option.none

/-- A worksheet: its cell rows, top to bottom.  Row 4 (one-based) is the
header row, data starts at row 5. -/
structure Sheet where
  rows : List (List CellVal)
deriving DecidableEq

/-- A workbook: named worksheets. -/
structure Workbook where
  sheets : List (String × Sheet)
deriving DecidableEq

/-- Embedding of `PlanilhaDadosProcessor._read_rows`: locate the sheet
and the columns, then keep the surviving rows; also returns the
`cartoes_labels` stored on the processor.  Any located column index is
below the header length, so truncation of data rows at the header
length (`max_col=len(header)`) does not affect the cells read. -/
def readRows (wb : Workbook) (startP endP : Option Period) :
    Except String (List PlanilhaRow × List String) :=
  match (wb.sheets.find? (fun e => e.1 == "LEVANTAMENTO DADOS")).map (fun e => e.2) with
  | Option.none => .error "Aba LEVANTAMENTO DADOS nao encontrada no arquivo"
  | some ws =>
    let header := ws.rows.getD 3 []
    match findColumn header "PERÍODO" with
    | .error e => .error e
    | .ok periodIdx =>
      match findColumn header "REMUNERAÇÃO RECEBIDA" with
      | .error e => .error e
      | .ok remIdx =>
        match findColumn header "PRODUÇÃO" with
        | .error e => .error e
        | .ok prodIdx =>
          match findHeColumns header with
          | .error e => .error e
          | .ok heCols =>
            match findAdcAux header.enum header with
            | .error e => .error e
            | .ok adcIdx =>
              .ok ((ws.rows.drop 4).filterMap
                  (processRow periodIdx remIdx prodIdx heCols adcIdx startP endP),
                cartoesLabels heCols adcIdx)

/-- Embedding of `PlanilhaDadosProcessor._format_mes_ano`:
`MM/YYYY` with the month zero-padded to two digits. -/
def formatMesAno (d : PyDateTime) : String :=
  (if d.month < 10 then "0" ++ natStr d.month else natStr d.month) ++ "/" ++ natStr d.year

/-- Shared header of the remuneration and production CSVs. -/
def remuneracaoCsvHeader : String :=
  "MES_ANO;VALOR;FGTS;FGTS_REC.;CONTRIBUICAO_SOCIAL;CONTRIBUICAO_SOCIAL_REC."

/-- One data line of `_write_remuneracao_csv`. -/
def remuneracaoLine (r : PlanilhaRow) : String :=
  formatMesAno r.periodo ++ ";" ++ formatDecimal r.remuneracao ++ ";N;N;N;N"

/-- Embedding of `PlanilhaDadosProcessor._write_remuneracao_csv` as the
list of lines written. -/
def writeRemuneracaoLines (rows : List PlanilhaRow) : List String :=
  remuneracaoCsvHeader :: rows.map remuneracaoLine

/-- One data line of `_write_producao_csv`. -/
def producaoLine (r : PlanilhaRow) : String :=
  formatMesAno r.periodo ++ ";" ++ formatDecimal r.producao ++ ";N;N;N;N"

/-- Embedding of `PlanilhaDadosProcessor._write_producao_csv` as the
list of lines written. -/
def writeProducaoLines (rows : List PlanilhaRow) : List String :=
  remuneracaoCsvHeader :: rows.map producaoLine

/-- String-keyed association lookup (Python dict `.get`). -/
def lookupSM {α : Type} (m : List (String × α)) (k : String) : Option α :=
  (m.find? (fun e => e.1 == k)).map (fun e => e.2)

/-- One value cell of `_write_cartoes_csv`: the ADC column reads
`adc_formula`, any other label reads `he_formulas.get(label)`. -/
def cartoesCell (lb : String) (r : PlanilhaRow) : String :=
  if lb == "ADIC.NOT" then formatDecimal r.adc_formula
  else formatDecimal ((lookupSM r.he_formulas lb).getD Option.none)

/-- One data line of `_write_cartoes_csv`. -/
def planilhaCartoesLine (labels : List String) (r : PlanilhaRow) : String :=
  formatMesAno r.periodo ++ ";" ++
    String.intercalate ";" (labels.map (fun lb => cartoesCell lb r))

/-- Embedding of `PlanilhaDadosProcessor._write_cartoes_csv` as the list
of lines written. -/
def writeCartoesLines (labels : List String) (rows : List PlanilhaRow) : List String :=
  String.intercalate ";" ("PERÍODO" :: labels) ::
    rows.map (planilhaCartoesLine labels)

/-- Contents of a filesystem entry that is a regular file: a source
workbook or a written text file. -/
inductive FileData where
  | workbook (wb : Workbook)
  | text (lines : List String)
deriving DecidableEq

/-- A filesystem entry: regular file or directory. -/
inductive FsEntry where
  | file (d : FileData)
  | dir
deriving DecidableEq

/-- A filesystem: one namespace of paths, treated as atomic strings
(ancestor creation by `mkdir(parents=True)` is abstracted away; the
output file paths are formed by appending `/<name>` to the output
directory path). -/
structure FS where
  entries : List (String × FsEntry)
deriving DecidableEq

/-- Entry at a path. -/
def fsLookup (fs : FS) (p : String) : Option FsEntry :=
  (fs.entries.find? (fun e => e.1 == p)).map (fun e => e.2)

/-- Whether a regular file sits at the path. -/
def fsIsFile (fs : FS) (p : String) : Bool :=
  match fsLookup fs p with
  | some (.file _) => true
  | _ => false

/-- Create or overwrite an entry. -/
def fsSet (fs : FS) (p : String) (v : FsEntry) : FS :=
  ⟨if fs.entries.any (fun e => e.1 == p) then
      fs.entries.map (fun e => if e.1 == p then (p, v) else e)
    else fs.entries ++ [(p, v)]⟩

/-- `Path.mkdir(parents=True, exist_ok=True)`: an existing directory is
fine, an existing regular file raises `FileExistsError`. -/
def fsMkdir (fs : FS) (p : String) : Except Unit FS :=
  match fsLookup fs p with
  | some .dir => .ok fs
  | some (.file _) => .error ()
  | Option.none => .ok (fsSet fs p .dir)

/-- Exceptions surfaced by `PlanilhaDadosProcessor.process`. -/
inductive PyErr where
  | fileExistsError
  | fileNotFoundError
  | valueError (msg : String)
  | loadError
deriving DecidableEq

instance : DecidableEq (Except PyErr Unit) := fun x y =>
  match x, y with
  | .ok a, .ok b =>
    if h : a = b then isTrue (by rw [h]) else isFalse (fun hh => h (by cases hh; rfl))
  | .error a, .error b =>
    if h : a = b then isTrue (by rw [h]) else isFalse (fun hh => h (by cases hh; rfl))
  | .ok _, .error _ => isFalse (fun hh => Except.noConfusion hh)
  | .error _, .ok _ => isFalse (fun hh => Except.noConfusion hh)

/-- Embedding of `PlanilhaDadosProcessor.process`
(src/processors/planilha_dados_processor.py lines 50-74): create the
output directory, then raise `FileNotFoundError` when nothing exists at
the workbook path (`Path.exists()` holds for files and directories
alike), then read the rows (`load_workbook` fails on an entry that is
not a workbook file, and `_read_rows` may raise `ValueError`), then
write the three CSV files. -/
def process (fs : FS) (workbookPath outputDir : String)
    (startP endP : Option Period) : Except PyErr Unit × FS :=
  match fsMkdir fs outputDir with
  | .error _ => (.error .fileExistsError, fs)
  | .ok fs1 =>
    match fsLookup fs1 workbookPath with
    | Option.none => (.error .fileNotFoundError, fs1)
    | some (.file (.workbook wb)) =>
      match readRows wb startP endP with
      | .error m => (.error (.valueError m), fs1)
      | .ok (rows, labels) =>
        let fs2 := fsSet fs1 (outputDir ++ "/" ++ "REMUNERAÇÃO RECEBIDA.csv")
          (.file (.text (writeRemuneracaoLines rows)))
        let fs3 := fsSet fs2 (outputDir ++ "/" ++ "PRODUÇÃO.csv")
          (.file (.text (writeProducaoLines rows)))
        let fs4 := fsSet fs3 (outputDir ++ "/" ++ "CARTÕES.csv")
          (.file (.text (writeCartoesLines labels rows)))
        (.ok (), fs4)
    | some _ => (.error .loadError, fs1)

/-- Modelled from the spec: the Ledger data model of section 3 for the
missing `FichaFinanceiraProcessor` source (only its tests are in the
repository): a mapping from code-label strings to period-indexed maps
of exact decimal amounts, embedded as `Rat`. -/
abbrev PeriodMapQ := List (Period × ℚ)

/-- Modelled from the spec: a Ledger (code label to period map). -/
abbrev Ledger := List (String × PeriodMapQ)

/-- Series of a ledger under a code label; a missing label is the empty
period map. -/
def getSeries (L : Ledger) (label : String) : PeriodMapQ :=
  ((L.find? (fun e => e.1 == label)).map (fun e => e.2)).getD []

/-- Store a series under a code label (Python dict assignment). -/
def setSeries (L : Ledger) (label : String) (m : PeriodMapQ) : Ledger :=
  if L.any (fun e => e.1 == label) then
    L.map (fun e => if e.1 == label then (label, m) else e)
  else L ++ [(label, m)]

/-- The four vacation-pay code labels of spec section 4.2. -/
def vacationCodes : List String :=
  ["167-Ferias", "168-Ferias", "173-Ferias", "174-Ferias"]

/-- Modelled from the spec (section 4.2, missing source): the set of
periods appearing as a key in any of the four vacation-pay series,
regardless of the stored amount. -/
def affectedPeriods (L : Ledger) : List Period :=
  (vacationCodes.foldr (fun code acc => keysPM (getSeries L code) ++ acc) []).dedup

/-- Modelled from the spec (section 4.2, missing source): the derived
base for one period, when both INSS series hold a value there and the
contribution base is nonzero; the division is guarded, so no error
branch exists. -/
def vacationBase (L : Ledger) (p : Period) : Option ℚ :=
  match lookupPM (getSeries L "527-INSS-Comp") p,
      lookupPM (getSeries L "527-INSS-Valor") p with
  | some comp, some valor =>
    if comp = 0 then Option.none else some (valor / comp * 100)
  | _, _ => Option.none

/-- Modelled from the spec:
`FichaFinanceiraProcessor._apply_vacation_adjustments` (section 4.2,
missing source; behaviour pinned by
src/tests/test_ficha_financeira_processor.py lines 9-40): store under
the reserved derived label `3123-Base` the period map derived from the
affected periods, reading only the four vacation-pay series and the two
INSS series. -/
def applyVacationAdjustments (L : Ledger) : Ledger :=
  setSeries L "3123-Base"
    ((affectedPeriods L).filterMap (fun p => (vacationBase L p).map (fun b => (p, b))))

/-- Modelled from the spec: an `AfastamentoSeries` (section 3).  The
`include` flag is called `includeFlag` because `include` is reserved in
Lean. -/
structure AfastamentoSeries where
  label : String
  values : PeriodMapQ
  includeFlag : Bool
deriving DecidableEq

/-- One reconciled row of the hours report: the computed figures of
spec section 4.3, before rendering.  `Option.none` in a day column is a
blank cell. -/
structure HorasRow where
  horasTrab : ℚ
  faltas : ℚ
  saldoHoras : ℚ
  afastValues : List ℚ
  diasTrabalhados : Option Int
  diasFerias : Option Int
deriving DecidableEq

/-- Modelled from the spec: the per-period computation of the
HoursReconciler (section 4.3 steps 1-7, missing source; behaviour
pinned by src/tests/test_ficha_financeira_processor.py lines 61-224).
An unsupplied `meses_registrados` override behaves as the empty list.
Python `round` rounds half to even, embedded as `roundHEQ`.  The spec
blanks the day columns when the worked hours equal the contracted
hours, but the repository test at lines 194-223 (worked 200, contracted
175 after two included afastamentos, day columns blank) requires the
day columns to be blank whenever the worked hours are at least the
contracted hours; the test is the authority, so that rule is modelled
here. -/
def horasRow (horas faltas : PeriodMapQ) (mesesRegistrados : List Period)
    (afastamentos : List AfastamentoSeries) (p : Period) : HorasRow :=
  let faltasP := getPM faltas p 0
  let offset := afastamentos.foldl
    (fun acc a => if a.includeFlag then acc + getPM a.values p 0 else acc) 0
  let contracted := 200 - offset
  let saldo := contracted - faltasP
  let cols := afastamentos.map (fun a => getPM a.values p 0)
  let registered := (lookupPM horas p).isSome || decide (p ∈ mesesRegistrados)
  if registered then
    let worked := getPM horas p 0
    if contracted ≤ worked then
      ⟨contracted, faltasP, saldo, cols, Option.none, Option.none⟩
    else
      let dt := roundHEQ (worked / 200 * 30)
      ⟨contracted, faltasP, saldo, cols, some dt, some (30 - dt)⟩
  else ⟨contracted, faltasP, saldo, cols, Option.none, Option.none⟩

/-- Requested periods in ascending order, one row per period. -/
def sortedPeriods (l : List Period) : List Period :=
  List.insertionSort periodLe l.dedup

/-- Smallest scale (up to the fuel) at which a rational is an exact
decimal, as a `Dec`.  Every amount the reports render is a finite
decimal; the fallback for a non-decimal rational is never reached by
them. -/
def decOfRatAux : Nat → ℚ → Nat → Option Dec
  | 0, _, _ => Option.none
  | fuel + 1, q, k =>
    if (q * 10 ^ k).den = 1 then some ⟨(q * 10 ^ k).num, -(k : Int)⟩
    else decOfRatAux fuel q (k + 1)

/-- Rational to `Dec` conversion used by the spec-modelled renderers. -/
def decOfRat (q : ℚ) : Dec := (decOfRatAux 64 q 0).getD ⟨0, 0⟩

/-- Shared decimal rendering rule of spec section 4.4 applied to a
rational amount: minimal digits, comma as decimal separator. -/
def fmtQ (q : ℚ) : String := formatDecimal (some (decOfRat q))

/-- Period rendering `MM/YYYY` of spec section 3. -/
def fmtPeriodo (p : Period) : String :=
  (if p.2 < 10 then "0" ++ natStr p.2 else natStr p.2) ++ "/" ++ natStr p.1

/-- Blank cell for a missing day figure, plain integer otherwise. -/
def renderOptInt (v : Option Int) : String :=
  match v with
  | Option.none => ""
  | some n => intStr n

/-- Modelled from the spec: header of the hours report (section 4.4),
with one column per afastamento series in input order. -/
def horasCsvHeader (afastamentos : List AfastamentoSeries) : String :=
  String.intercalate ";"
    (["PERIODO", "HORAS TRAB.", "FALTAS", "SALDO HORAS"]
      ++ afastamentos.map (fun a => a.label)
      ++ ["DIAS TRABALHADOS", "DIAS FERIAS"])

/-- One rendered data line of the hours report. -/
def renderHorasRow (p : Period) (r : HorasRow) : String :=
  String.intercalate ";"
    ([fmtPeriodo p, fmtQ r.horasTrab, fmtQ r.faltas, fmtQ r.saldoHoras]
      ++ r.afastValues.map fmtQ
      ++ [renderOptInt r.diasTrabalhados, renderOptInt r.diasFerias])

/-- Modelled from the spec:
`FichaFinanceiraProcessor._write_horas_trabalhadas_csv` (sections 4.3
and 4.4, missing source; behaviour pinned by
src/tests/test_ficha_financeira_processor.py lines 61-224), as the list
of lines written. -/
def writeHorasTrabalhadasLines (months : List Period) (horas faltas : PeriodMapQ)
    (mesesRegistrados : List Period) (afastamentos : List AfastamentoSeries) :
    List String :=
  horasCsvHeader afastamentos ::
    (sortedPeriods months).map
      (fun p => renderHorasRow p (horasRow horas faltas mesesRegistrados afastamentos p))

/-- Modelled from the spec: the row set of the overtime-cards report
(section 4.4): the union of the periods of both series and the
suggested months, ascending. -/
def cartoesPeriods (months : List Period) (horas50 horas100 : PeriodMapQ) :
    List Period :=
  List.insertionSort periodLe (keysPM horas50 ++ keysPM horas100 ++ months).dedup

/-- One rendered data line of the overtime-cards report; a missing
value reads as zero and renders as the literal `0`. -/
def fichaCartoesLine (horas50 horas100 : PeriodMapQ) (p : Period) : String :=
  fmtPeriodo p ++ ";" ++ fmtQ (getPM horas50 p 0) ++ ";" ++ fmtQ (getPM horas100 p 0)

/-- Modelled from the spec: `FichaFinanceiraProcessor._write_cartoes_csv`
(section 4.4, missing source; behaviour pinned by
src/tests/test_ficha_financeira_processor.py lines 226-242), as the
list of lines written. -/
def writeFichaCartoesLines (months : List Period) (horas50 horas100 : PeriodMapQ) :
    List String :=
  "PERIODO;HORA EXTRA 50%;HORA EXTRA 100%" ::
    (cartoesPeriods months horas50 horas100).map (fichaCartoesLine horas50 horas100)

/-- Generic association-list lookup (shape shared by `lookupPM`,
`lookupSM`, `fsLookup` and `getSeries`). -/
def alLookup {K V : Type} [BEq K] (m : List (K × V)) (k : K) : Option V :=
  (m.find? (fun e => e.1 == k)).map (fun e => e.2)

/-- Generic association-list insert with Python dict semantics (shape
shared by `dictInsert`, `setSeries` and `fsSet`). -/
def alInsert {K V : Type} [BEq K] (m : List (K × V)) (k : K) (v : V) :
    List (K × V) :=
  if m.any (fun e => e.1 == k) then
    m.map (fun e => if e.1 == k then (k, v) else e)
  else m ++ [(k, v)]

/-- Period column of a list of CSV lines: the text of each line before
the first semicolon. -/
def csvPeriodColumn (lines : List String) : List String :=
  lines.map (fun s => (s.data.takeWhile (fun c => c != ';')).asString)


theorem alLookup_cons {K V : Type} [BEq K] [LawfulBEq K] [DecidableEq K]
    (x : K × V) (t : List (K × V)) (k : K) :
    alLookup (x :: t) k = if x.1 = k then some x.2 else alLookup t k := by
  by_cases h : x.1 = k
  · simp [alLookup, List.find?_cons, h]
  · simp [alLookup, List.find?_cons, h]

theorem alLookup_eq_none {K V : Type} [BEq K] [LawfulBEq K] [DecidableEq K]
    (m : List (K × V)) (k : K) :
    alLookup m k = Option.none ↔ k ∉ m.map (fun e => e.1) := by
  induction m with
  | nil => simp [alLookup]
  | cons x t ih =>
    rw [alLookup_cons]
    by_cases h : x.1 = k
    · simp [h]
    · simp only [if_neg h, ih, List.map_cons, List.mem_cons]
      constructor
      · rintro hk (rfl | hm)
        · exact h rfl
        · exact hk hm
      · intro hk hm
        exact hk (Or.inr hm)

theorem alLookup_map_update {K V : Type} [BEq K] [LawfulBEq K] [DecidableEq K]
    (m : List (K × V)) (k : K) (v : V) :
    alLookup (m.map (fun e => if e.1 == k then (k, v) else e)) k
      = if m.any (fun e => e.1 == k) then some v else Option.none := by
  induction m with
  | nil => simp [alLookup]
  | cons x t ih =>
    rw [List.map_cons]
    by_cases h : x.1 = k
    · rw [if_pos (by simpa using h), alLookup_cons]
      simp [List.any_cons, h]
    · rw [if_neg (by simpa using h), alLookup_cons, if_neg h, ih]
      have hb : (x.1 == k) = false := by simpa using h
      rw [List.any_cons, hb, Bool.false_or]

theorem alLookup_map_update_ne {K V : Type} [BEq K] [LawfulBEq K] [DecidableEq K]
    (m : List (K × V)) (k k2 : K) (v : V) (h : k2 ≠ k) :
    alLookup (m.map (fun e => if e.1 == k then (k, v) else e)) k2
      = alLookup m k2 := by
  have hk2 : ¬(k = k2) := fun hk => h hk.symm
  induction m with
  | nil => rfl
  | cons x t ih =>
    rw [List.map_cons]
    by_cases hx : x.1 = k
    · have hx1 : ¬(x.1 = k2) := by rw [hx]; exact hk2
      have hx2 : ¬((k, v).1 = k2) := fun hh => hk2 (by simpa using hh)
      rw [if_pos (by simpa using hx), alLookup_cons, alLookup_cons,
        if_neg hx2, if_neg hx1, ih]
    · rw [if_neg (by simpa using hx), alLookup_cons, alLookup_cons, ih]

theorem alLookup_alInsert_self {K V : Type} [BEq K] [LawfulBEq K] [DecidableEq K]
    (m : List (K × V)) (k : K) (v : V) :
    alLookup (alInsert m k v) k = some v := by
  unfold alInsert
  by_cases hany : m.any (fun e => e.1 == k)
  · rw [if_pos hany, alLookup_map_update, if_pos hany]
  · rw [if_neg hany]
    have h1 : List.find? (fun e : K × V => e.1 == k) m = Option.none := by
      rw [List.find?_eq_none]
      intro x hx hbeq
      exact hany (List.any_eq_true.mpr ⟨x, hx, hbeq⟩)
    simp [alLookup, List.find?_append, h1, List.find?_cons]

theorem alLookup_alInsert_ne {K V : Type} [BEq K] [LawfulBEq K] [DecidableEq K]
    (m : List (K × V)) (k k2 : K) (v : V) (h : k2 ≠ k) :
    alLookup (alInsert m k v) k2 = alLookup m k2 := by
  unfold alInsert
  by_cases hany : m.any (fun e => e.1 == k)
  · rw [if_pos hany, alLookup_map_update_ne _ _ _ _ h]
  · rw [if_neg hany]
    have h2 : (k == k2) = false := by
      simp only [beq_eq_false_iff_ne, ne_eq]
      exact fun hk => h hk.symm
    simp [alLookup, List.find?_append, List.find?_cons, h2]

theorem lookupPM_eq_alLookup {α : Type} (m : List (Period × α)) (p : Period) :
    lookupPM m p = alLookup m p := rfl

theorem lookupSM_eq_alLookup {α : Type} (m : List (String × α)) (k : String) :
    lookupSM m k = alLookup m k := rfl

theorem dictInsert_eq_alInsert {α : Type} (m : List (String × α)) (k : String) (v : α) :
    dictInsert m k v = alInsert m k v := rfl

theorem getSeries_eq (L : Ledger) (label : String) :
    getSeries L label = (alLookup L label).getD [] := rfl

theorem setSeries_eq_alInsert (L : Ledger) (label : String) (m : PeriodMapQ) :
    setSeries L label m = alInsert L label m := rfl

theorem fsLookup_eq_alLookup (fs : FS) (p : String) :
    fsLookup fs p = alLookup fs.entries p := rfl

theorem fsSet_eq_alInsert (fs : FS) (p : String) (v : FsEntry) :
    (fsSet fs p v).entries = alInsert fs.entries p v := rfl

theorem getSeries_setSeries_self (L : Ledger) (label : String) (m : PeriodMapQ) :
    getSeries (setSeries L label m) label = m := by
  rw [setSeries_eq_alInsert, getSeries_eq, alLookup_alInsert_self]
  rfl

theorem getSeries_setSeries_ne (L : Ledger) (label label2 : String)
    (m : PeriodMapQ) (h : label2 ≠ label) :
    getSeries (setSeries L label m) label2 = getSeries L label2 := by
  rw [setSeries_eq_alInsert, getSeries_eq, alLookup_alInsert_ne _ _ _ _ h, getSeries_eq]

theorem lookupPM_eq_none {α : Type} (m : List (Period × α)) (p : Period) :
    lookupPM m p = Option.none ↔ p ∉ keysPM m := by
  rw [lookupPM_eq_alLookup, alLookup_eq_none]
  rfl

theorem lookupPM_isSome_iff {α : Type} (m : List (Period × α)) (p : Period) :
    (lookupPM m p).isSome = true ↔ p ∈ keysPM m := by
  have hn := lookupPM_eq_none m p
  cases h : lookupPM m p with
  | none =>
    rw [h] at hn
    simp only [Option.isSome_none, Bool.false_eq_true, false_iff]
    exact hn.mp rfl
  | some v =>
    rw [h] at hn
    simp only [Option.isSome_some, true_iff]
    by_contra hm
    exact absurd (hn.mpr hm) (by simp)

theorem lookupPM_filterMap (f : Period → Option ℚ) (ps : List Period)
    (hnd : ps.Nodup) (q : Period) :
    lookupPM (ps.filterMap (fun p => (f p).map (fun b => (p, b)))) q
      = if q ∈ ps then f q else Option.none := by
  induction ps with
  | nil => simp [lookupPM]
  | cons p t ih =>
    have hpt : p ∉ t := (List.nodup_cons.mp hnd).1
    have ht : t.Nodup := (List.nodup_cons.mp hnd).2
    cases hfp : f p with
    | none =>
      simp only [List.filterMap_cons, hfp, Option.map_none']
      rw [ih ht]
      by_cases hq : q = p
      · subst hq
        simp [hpt, hfp]
      · simp [List.mem_cons, hq]
    | some b =>
      simp only [List.filterMap_cons, hfp, Option.map_some']
      rw [lookupPM_eq_alLookup, alLookup_cons]
      by_cases hq : q = p
      · subst hq
        simp [hfp]
      · have hne : ¬((p, b).1 = q) := fun hpq => hq (by simpa using hpq.symm)
        rw [if_neg hne, ← lookupPM_eq_alLookup, ih ht]
        simp [List.mem_cons, hq]

theorem mem_affectedPeriods_iff (L : Ledger) (p : Period) :
    p ∈ affectedPeriods L
      ↔ (p ∈ keysPM (getSeries L "167-Ferias") ∨ p ∈ keysPM (getSeries L "168-Ferias")
        ∨ p ∈ keysPM (getSeries L "173-Ferias") ∨ p ∈ keysPM (getSeries L "174-Ferias")) := by
  simp only [affectedPeriods, vacationCodes, List.foldr_cons, List.foldr_nil,
    List.mem_dedup, List.mem_append, List.append_nil]

theorem vacationBase_isSome_iff (L : Ledger) (p : Period) :
    (∃ b, vacationBase L p = some b)
      ↔ ∃ c, lookupPM (getSeries L "527-INSS-Comp") p = some c ∧ c ≠ 0
          ∧ ∃ v, lookupPM (getSeries L "527-INSS-Valor") p = some v := by
  unfold vacationBase
  cases h1 : lookupPM (getSeries L "527-INSS-Comp") p with
  | none => simp
  | some c =>
    cases h2 : lookupPM (getSeries L "527-INSS-Valor") p with
    | none => simp
    | some v =>
      by_cases hc : c = 0
      · simp [hc]
      · simp [hc]

theorem getSeries_applyVacationAdjustments_base (L : Ledger) :
    getSeries (applyVacationAdjustments L) "3123-Base"
      = (affectedPeriods L).filterMap
          (fun p => (vacationBase L p).map (fun b => (p, b))) := by
  rw [applyVacationAdjustments, getSeries_setSeries_self]

theorem getSeries_applyVacationAdjustments_ne (L : Ledger) (code : String)
    (h : code ≠ "3123-Base") :
    getSeries (applyVacationAdjustments L) code = getSeries L code := by
  rw [applyVacationAdjustments, getSeries_setSeries_ne _ _ _ _ h]

theorem lookupPM_base_applyVacationAdjustments (L : Ledger) (p : Period) :
    lookupPM (getSeries (applyVacationAdjustments L) "3123-Base") p
      = if p ∈ affectedPeriods L then vacationBase L p else Option.none := by
  have hnd : (affectedPeriods L).Nodup := by
    unfold affectedPeriods
    exact List.nodup_dedup _
  rw [getSeries_applyVacationAdjustments_base, lookupPM_filterMap _ _ hnd]

/-- Claim C3: for every ledger and every period that is a key of at
least one vacation-pay series and where both INSS series hold a value
with a nonzero contribution base, the vacation adjustment rule stores
exactly `(inss_valor / inss_comp) * 100` under `3123-Base` at that
period. -/
theorem C3_vacation_adjustment_stores_ratio (L : Ledger) (p : Period) (c v : ℚ)
    (hmem : p ∈ keysPM (getSeries L "167-Ferias") ∨ p ∈ keysPM (getSeries L "168-Ferias")
      ∨ p ∈ keysPM (getSeries L "173-Ferias") ∨ p ∈ keysPM (getSeries L "174-Ferias"))
    (hc : lookupPM (getSeries L "527-INSS-Comp") p = some c) (hc0 : c ≠ 0)
    (hv : lookupPM (getSeries L "527-INSS-Valor") p = some v) :
    lookupPM (getSeries (applyVacationAdjustments L) "3123-Base") p
      = some (v / c * 100) := by
  rw [lookupPM_base_applyVacationAdjustments,
    if_pos ((mem_affectedPeriods_iff L p).mpr hmem)]
  unfold vacationBase
  rw [hc, hv]
  simp [hc0]

/-- Claim C3, witness: the concrete ledger of the repository test
`test_applies_adjustment_when_single_vacation_code_has_value` yields
`3123-Base` equal to ten at (2024, 1). -/
theorem C3_vacation_adjustment_stores_ratio_witness :
    lookupPM (getSeries (applyVacationAdjustments
      [("173-Ferias", []), ("174-Ferias", [((2024, 1), (2000 : ℚ))]),
       ("527-INSS-Comp", [((2024, 1), (3000 : ℚ))]),
       ("527-INSS-Valor", [((2024, 1), (300 : ℚ))])]) "3123-Base") (2024, 1)
      = some 10 := by
  rw [C3_vacation_adjustment_stores_ratio _ _ 3000 300 (by decide) (by decide)
    (by norm_num) (by decide)]
  norm_num

/-- Claim C4: the vacation adjustment rule writes `3123-Base` at a
period exactly when the period is a key of one of the four vacation-pay
series (a stored zero counts as present) and both INSS series hold a
value there with a nonzero contribution base; in every other case
nothing is written for that period, and the rule is a total function
with the division guarded behind the nonzero test. -/
theorem C4_vacation_adjustment_writes_iff (L : Ledger) (p : Period) :
    (∃ b, lookupPM (getSeries (applyVacationAdjustments L) "3123-Base") p = some b)
      ↔ ((p ∈ keysPM (getSeries L "167-Ferias") ∨ p ∈ keysPM (getSeries L "168-Ferias")
          ∨ p ∈ keysPM (getSeries L "173-Ferias") ∨ p ∈ keysPM (getSeries L "174-Ferias"))
        ∧ ∃ c, lookupPM (getSeries L "527-INSS-Comp") p = some c ∧ c ≠ 0
            ∧ ∃ v, lookupPM (getSeries L "527-INSS-Valor") p = some v) := by
  rw [lookupPM_base_applyVacationAdjustments]
  by_cases hmem : p ∈ affectedPeriods L
  · rw [if_pos hmem]
    rw [← vacationBase_isSome_iff]
    constructor
    · intro hb
      exact ⟨(mem_affectedPeriods_iff L p).mp hmem, hb⟩
    · intro hb
      exact hb.2
  · rw [if_neg hmem]
    constructor
    · rintro ⟨b, hb⟩
      exact absurd hb (by simp)
    · rintro ⟨hm, -⟩
      exact absurd ((mem_affectedPeriods_iff L p).mpr hm) hmem

/-- Claim C4, witness: the zero-valued vacation entries of the
repository test `test_applies_adjustment_using_inss_months_when_
vacation_values_zero` still count as present, so a base value is
written at (2024, 2). -/
theorem C4_vacation_adjustment_writes_iff_witness :
    ∃ b, lookupPM (getSeries (applyVacationAdjustments
      [("167-Ferias", [((2024, 2), (0 : ℚ))]), ("168-Ferias", [((2024, 2), (0 : ℚ))]),
       ("173-Ferias", [((2024, 2), (0 : ℚ))]), ("174-Ferias", [((2024, 2), (0 : ℚ))]),
       ("527-INSS-Comp", [((2024, 2), (3000 : ℚ))]),
       ("527-INSS-Valor", [((2024, 2), (300 : ℚ))])]) "3123-Base") (2024, 2)
      = some b :=
  (C4_vacation_adjustment_writes_iff _ _).mpr
    ⟨Or.inl (by decide), 3000, by decide, by norm_num, 300, by decide⟩

/-- Claim C5: the vacation adjustment rule is idempotent; applying it
twice yields the same `3123-Base` period map as applying it once, since
it reads only the vacation-pay and INSS source series, which it never
writes. -/
theorem C5_vacation_adjustment_idempotent (L : Ledger) :
    getSeries (applyVacationAdjustments (applyVacationAdjustments L)) "3123-Base"
      = getSeries (applyVacationAdjustments L) "3123-Base" := by
  have haff : affectedPeriods (applyVacationAdjustments L) = affectedPeriods L := by
    simp only [affectedPeriods, vacationCodes, List.foldr_cons, List.foldr_nil]
    rw [getSeries_applyVacationAdjustments_ne L "167-Ferias" (by decide),
      getSeries_applyVacationAdjustments_ne L "168-Ferias" (by decide),
      getSeries_applyVacationAdjustments_ne L "173-Ferias" (by decide),
      getSeries_applyVacationAdjustments_ne L "174-Ferias" (by decide)]
  have hbase : ∀ q, vacationBase (applyVacationAdjustments L) q = vacationBase L q := by
    intro q
    unfold vacationBase
    rw [getSeries_applyVacationAdjustments_ne L "527-INSS-Comp" (by decide),
      getSeries_applyVacationAdjustments_ne L "527-INSS-Valor" (by decide)]
  rw [getSeries_applyVacationAdjustments_base,
    getSeries_applyVacationAdjustments_base, haff]
  have hf : (fun p => (vacationBase (applyVacationAdjustments L) p).map
      (fun b => (p, b)))
      = fun p => (vacationBase L p).map (fun b => (p, b)) :=
    funext fun p => by rw [hbase p]
  rw [hf]

theorem foldl_include_sum (l : List AfastamentoSeries)
    (g : AfastamentoSeries → ℚ) (init : ℚ) :
    l.foldl (fun acc a => if a.includeFlag then acc + g a else acc) init
      = init + ((l.filter (fun a => a.includeFlag)).map g).sum := by
  induction l generalizing init with
  | nil => simp
  | cons x t ih =>
    by_cases h : x.includeFlag
    · rw [List.foldl_cons, if_pos h, ih, List.filter_cons, if_pos h,
        List.map_cons, List.sum_cons]
      ring
    · rw [List.foldl_cons, if_neg h, ih, List.filter_cons, if_neg h]

theorem horasRow_fields (horas faltas : PeriodMapQ) (meses : List Period)
    (afasts : List AfastamentoSeries) (p : Period) :
    (horasRow horas faltas meses afasts p).horasTrab
        = 200 - ((afasts.filter (fun a => a.includeFlag)).map
            (fun a => getPM a.values p 0)).sum
      ∧ (horasRow horas faltas meses afasts p).faltas = getPM faltas p 0
      ∧ (horasRow horas faltas meses afasts p).saldoHoras
        = (horasRow horas faltas meses afasts p).horasTrab - getPM faltas p 0
      ∧ (horasRow horas faltas meses afasts p).afastValues
        = afasts.map (fun a => getPM a.values p 0) := by
  have hfold : afasts.foldl
      (fun acc a => if a.includeFlag then acc + getPM a.values p 0 else acc) 0
      = ((afasts.filter (fun a => a.includeFlag)).map
          (fun a => getPM a.values p 0)).sum := by
    rw [foldl_include_sum, zero_add]
  simp only [horasRow]
  split
  · split
    · exact ⟨by rw [hfold], rfl, rfl, rfl⟩
    · exact ⟨by rw [hfold], rfl, rfl, rfl⟩
  · exact ⟨by rw [hfold], rfl, rfl, rfl⟩

theorem horasRow_days_not_registered (horas faltas : PeriodMapQ)
    (meses : List Period) (afasts : List AfastamentoSeries) (p : Period)
    (h : ¬(p ∈ keysPM horas ∨ p ∈ meses)) :
    (horasRow horas faltas meses afasts p).diasTrabalhados = Option.none
      ∧ (horasRow horas faltas meses afasts p).diasFerias = Option.none := by
  have h1 : lookupPM horas p = Option.none :=
    (lookupPM_eq_none _ _).mpr (fun hm => h (Or.inl hm))
  have h2 : p ∉ meses := fun hm => h (Or.inr hm)
  have hb : ((lookupPM horas p).isSome || decide (p ∈ meses)) = false := by
    simp [h1, h2]
  simp only [horasRow, hb]
  exact ⟨rfl, rfl⟩

theorem horasRow_days_at_least_contracted (horas faltas : PeriodMapQ)
    (meses : List Period) (afasts : List AfastamentoSeries) (p : Period)
    (h : p ∈ keysPM horas ∨ p ∈ meses)
    (hge : 200 - ((afasts.filter (fun a => a.includeFlag)).map
        (fun a => getPM a.values p 0)).sum ≤ getPM horas p 0) :
    (horasRow horas faltas meses afasts p).diasTrabalhados = Option.none
      ∧ (horasRow horas faltas meses afasts p).diasFerias = Option.none := by
  have hb : ((lookupPM horas p).isSome || decide (p ∈ meses)) = true := by
    rcases h with hm | hm
    · simp [(lookupPM_isSome_iff horas p).mpr hm]
    · simp [hm]
  have hfold : afasts.foldl
      (fun acc a => if a.includeFlag then acc + getPM a.values p 0 else acc) 0
      = ((afasts.filter (fun a => a.includeFlag)).map
          (fun a => getPM a.values p 0)).sum := by
    rw [foldl_include_sum, zero_add]
  rw [← hfold] at hge
  simp only [horasRow, hb, if_true, if_pos hge]
  refine ⟨?_, ?_⟩ <;> trivial

theorem horasRow_days_split (horas faltas : PeriodMapQ)
    (meses : List Period) (afasts : List AfastamentoSeries) (p : Period)
    (h : p ∈ keysPM horas ∨ p ∈ meses)
    (hlt : getPM horas p 0 < 200 - ((afasts.filter (fun a => a.includeFlag)).map
        (fun a => getPM a.values p 0)).sum) :
    (horasRow horas faltas meses afasts p).diasTrabalhados
        = some (roundHEQ (getPM horas p 0 / 200 * 30))
      ∧ (horasRow horas faltas meses afasts p).diasFerias
        = some (30 - roundHEQ (getPM horas p 0 / 200 * 30)) := by
  have hb : ((lookupPM horas p).isSome || decide (p ∈ meses)) = true := by
    rcases h with hm | hm
    · simp [(lookupPM_isSome_iff horas p).mpr hm]
    · simp [hm]
  have hfold : afasts.foldl
      (fun acc a => if a.includeFlag then acc + getPM a.values p 0 else acc) 0
      = ((afasts.filter (fun a => a.includeFlag)).map
          (fun a => getPM a.values p 0)).sum := by
    rw [foldl_include_sum, zero_add]
  have hnle : ¬(200 - ((afasts.filter (fun a => a.includeFlag)).map
      (fun a => getPM a.values p 0)).sum ≤ getPM horas p 0) := not_le.mpr hlt
  rw [← hfold] at hnle
  simp only [horasRow, hb, if_true, if_neg hnle]
  refine ⟨?_, ?_⟩ <;> trivial

/-- Claim C1, counterexample: in the repository test
`test_subtracts_all_afastamentos_from_hours_column` (src/tests/
test_ficha_financeira_processor.py lines 194-223) the period is
registered (200 worked hours are recorded), the worked hours differ
from the contracted hours (200 against 175 after two included
afastamentos), yet the test requires both day columns blank, where the
claim as stated requires `round(200 / 200 * 30) = 30` worked days. -/
theorem C1_day_columns_counterexample :
    ((2024, 7) ∈ keysPM [((2024, 7), (200 : ℚ))])
    ∧ getPM [((2024, 7), (200 : ℚ))] (2024, 7) 0
        ≠ (horasRow [((2024, 7), (200 : ℚ))] [] []
            [⟨"902-AFAST. DOENCA", [((2024, 7), (10 : ℚ))], true⟩,
             ⟨"910-AFAST. MATERNIDADE", [((2024, 7), (15 : ℚ))], true⟩]
            (2024, 7)).horasTrab
    ∧ (horasRow [((2024, 7), (200 : ℚ))] [] []
          [⟨"902-AFAST. DOENCA", [((2024, 7), (10 : ℚ))], true⟩,
           ⟨"910-AFAST. MATERNIDADE", [((2024, 7), (15 : ℚ))], true⟩]
          (2024, 7)).diasTrabalhados = Option.none
    ∧ (Option.none : Option Int)
        ≠ some (roundHEQ (getPM [((2024, 7), (200 : ℚ))] (2024, 7) 0 / 200 * 30)) := by
  refine ⟨by decide, ?_, ?_, by simp⟩
  · rw [(horasRow_fields _ _ _ _ _).1]
    simp [getPM, lookupPM, List.find?_cons, List.filter_cons]
    norm_num
  · refine (horasRow_days_at_least_contracted _ _ _ _ _ (Or.inl (by decide)) ?_).1
    simp [getPM, lookupPM, List.find?_cons, List.filter_cons]
    norm_num

/-- Claim C1 (amended): for every target period of the hours
reconciler, the period is registered exactly when it is a key of the
worked-hours series or a member of the supplied registered-months set;
an unregistered period has both day columns blank; a registered period
whose worked hours (default zero) are at least its contracted hours has
both day columns blank; otherwise the worked days are
`round(worked / 200 * 30)` (half to even, the Python `round`) and the
vacation days are thirty minus that, the divisor being the fixed
reference of 200 hours even when included afastamentos have lowered the
contracted hours. -/
theorem C1_amended_day_columns (horas faltas : PeriodMapQ) (meses : List Period)
    (afasts : List AfastamentoSeries) (p : Period) :
    (¬(p ∈ keysPM horas ∨ p ∈ meses) →
      (horasRow horas faltas meses afasts p).diasTrabalhados = Option.none
      ∧ (horasRow horas faltas meses afasts p).diasFerias = Option.none)
    ∧ ((p ∈ keysPM horas ∨ p ∈ meses) →
        200 - ((afasts.filter (fun a => a.includeFlag)).map
            (fun a => getPM a.values p 0)).sum ≤ getPM horas p 0 →
        (horasRow horas faltas meses afasts p).diasTrabalhados = Option.none
        ∧ (horasRow horas faltas meses afasts p).diasFerias = Option.none)
    ∧ ((p ∈ keysPM horas ∨ p ∈ meses) →
        getPM horas p 0 < 200 - ((afasts.filter (fun a => a.includeFlag)).map
            (fun a => getPM a.values p 0)).sum →
        (horasRow horas faltas meses afasts p).diasTrabalhados
          = some (roundHEQ (getPM horas p 0 / 200 * 30))
        ∧ (horasRow horas faltas meses afasts p).diasFerias
          = some (30 - roundHEQ (getPM horas p 0 / 200 * 30))) :=
  ⟨horasRow_days_not_registered horas faltas meses afasts p,
   horasRow_days_at_least_contracted horas faltas meses afasts p,
   horasRow_days_split horas faltas meses afasts p⟩

/-- Claim C1 (amended), witness: the repository test inputs of
`test_includes_day_columns_with_formula` (180 worked hours in January
2024, nothing else) produce 27 worked days and 3 vacation days. -/
theorem C1_amended_day_columns_witness :
    (horasRow [((2024, 1), (180 : ℚ))] [] [] [] (2024, 1)).diasTrabalhados = some 27
    ∧ (horasRow [((2024, 1), (180 : ℚ))] [] [] [] (2024, 1)).diasFerias = some 3 := by
  have hg : getPM [((2024, 1), (180 : ℚ))] (2024, 1) 0 = 180 := by
    simp [getPM, lookupPM, List.find?_cons]
  have h := (C1_amended_day_columns [((2024, 1), (180 : ℚ))] [] [] [] (2024, 1)).2.2
    (Or.inl (by decide)) (by rw [hg]; norm_num)
  have hr : roundHEQ ((180 : ℚ) / 200 * 30) = 27 := by norm_num [roundHEQ]
  refine ⟨?_, ?_⟩
  · rw [h.1, hg, hr]
  · rw [h.2, hg, hr]
    norm_num

/-- Claim C2: for every target period of the hours reconciler, the
HORAS TRAB. figure is 200 minus the sum of the included afastamento
values at that period (each defaulting to zero), the SALDO HORAS figure
is that minus the faltas value (default zero), and every afastamento
series contributes its raw value as its own column regardless of its
include flag; the rendered report is the header followed by one
rendered row per requested period. -/
theorem C2_hours_and_balance_columns (horas faltas : PeriodMapQ)
    (meses : List Period) (afasts : List AfastamentoSeries) (p : Period)
    (months : List Period) :
    (horasRow horas faltas meses afasts p).horasTrab
        = 200 - ((afasts.filter (fun a => a.includeFlag)).map
            (fun a => getPM a.values p 0)).sum
      ∧ (horasRow horas faltas meses afasts p).saldoHoras
        = (horasRow horas faltas meses afasts p).horasTrab - getPM faltas p 0
      ∧ (horasRow horas faltas meses afasts p).afastValues
        = afasts.map (fun a => getPM a.values p 0)
      ∧ writeHorasTrabalhadasLines months horas faltas meses afasts
        = horasCsvHeader afasts :: (sortedPeriods months).map
            (fun q => renderHorasRow q (horasRow horas faltas meses afasts q)) :=
  ⟨(horasRow_fields horas faltas meses afasts p).1,
   (horasRow_fields horas faltas meses afasts p).2.2.1,
   (horasRow_fields horas faltas meses afasts p).2.2.2,
   rfl⟩

theorem decOfRat_intCast (n : ℤ) : decOfRat ((n : ℚ)) = ⟨n, 0⟩ := by
  show (decOfRatAux (63 + 1) (n : ℚ) 0).getD ⟨0, 0⟩ = ⟨n, 0⟩
  rw [decOfRatAux]
  norm_num

theorem fmtQ_intCast (n : ℤ) : fmtQ ((n : ℚ)) = formatDecimal (some ⟨n, 0⟩) := by
  rw [fmtQ, decOfRat_intCast]

theorem fmtQ_zero : fmtQ 0 = "0" := by
  rw [show (0 : ℚ) = ((0 : ℤ) : ℚ) by norm_num, fmtQ_intCast]
  decide

/-- Claim C6: the overtime-cards renderer emits the exact header
followed by one line per period of the union of both series and the
suggested months, in ascending period order without repetition; a
period missing from a series renders as the literal zero in that
series' column. -/
theorem C6_cartoes_renderer (months : List Period) (horas50 horas100 : PeriodMapQ) :
    writeFichaCartoesLines months horas50 horas100
      = "PERIODO;HORA EXTRA 50%;HORA EXTRA 100%"
        :: (cartoesPeriods months horas50 horas100).map
            (fichaCartoesLine horas50 horas100)
    ∧ List.Sorted periodLe (cartoesPeriods months horas50 horas100)
    ∧ (cartoesPeriods months horas50 horas100).Nodup
    ∧ (∀ p, p ∈ cartoesPeriods months horas50 horas100
        ↔ p ∈ keysPM horas50 ∨ p ∈ keysPM horas100 ∨ p ∈ months)
    ∧ (∀ p, p ∉ keysPM horas50 →
        fichaCartoesLine horas50 horas100 p
          = fmtPeriodo p ++ ";" ++ "0" ++ ";" ++ fmtQ (getPM horas100 p 0))
    ∧ (∀ p, p ∉ keysPM horas100 →
        fichaCartoesLine horas50 horas100 p
          = fmtPeriodo p ++ ";" ++ fmtQ (getPM horas50 p 0) ++ ";" ++ "0") := by
  refine ⟨rfl, List.sorted_insertionSort periodLe _,
    (List.perm_insertionSort periodLe _).nodup_iff.mpr (List.nodup_dedup _),
    ?_, ?_, ?_⟩
  · intro p
    rw [cartoesPeriods, (List.perm_insertionSort periodLe _).mem_iff,
      List.mem_dedup, List.mem_append, List.mem_append, or_assoc]
  · intro p hp
    have h0 : getPM horas50 p 0 = 0 := by
      rw [getPM, (lookupPM_eq_none _ _).mpr hp]
      rfl
    rw [fichaCartoesLine, h0, fmtQ_zero]
  · intro p hp
    have h0 : getPM horas100 p 0 = 0 := by
      rw [getPM, (lookupPM_eq_none _ _).mpr hp]
      rfl
    rw [fichaCartoesLine, h0, fmtQ_zero]

/-- Claim C6, witness: with the repository test inputs
(`horas_50 = [(2024, 1, 10)]`, `horas_100 = [(2024, 2, 5)]`, suggested
months `[(2024, 1)]`) the period (2024, 2) enters the row set through
the 100-percent series alone and the January line renders the missing
100-percent value as the literal zero. -/
theorem C6_cartoes_renderer_witness :
    ((2024, 2) ∈ cartoesPeriods [(2024, 1)] [((2024, 1), (10 : ℚ))]
        [((2024, 2), (5 : ℚ))])
    ∧ fichaCartoesLine [((2024, 1), (10 : ℚ))] [((2024, 2), (5 : ℚ))] (2024, 1)
      = "01/2024;10;0" := by
  constructor
  · exact ((C6_cartoes_renderer [(2024, 1)] [((2024, 1), (10 : ℚ))]
      [((2024, 2), (5 : ℚ))]).2.2.2.1 (2024, 2)).mpr (Or.inr (Or.inl (by decide)))
  · have h := (C6_cartoes_renderer [(2024, 1)] [((2024, 1), (10 : ℚ))]
      [((2024, 2), (5 : ℚ))]).2.2.2.2.2 (2024, 1) (by decide)
    rw [h]
    have hg : getPM [((2024, 1), (10 : ℚ))] (2024, 1) 0 = ((10 : ℤ) : ℚ) := by
      simp [getPM, lookupPM, List.find?_cons]
    rw [hg, fmtQ_intCast]
    decide

theorem fsIsFile_fsSet_dir (fs : FS) (d : String)
    (hd : fsLookup fs d = Option.none ∨ fsLookup fs d = some FsEntry.dir)
    (q : String) :
    fsIsFile (fsSet fs d FsEntry.dir) q = fsIsFile fs q := by
  by_cases hq : q = d
  · subst hq
    have h1 : fsLookup (fsSet fs q FsEntry.dir) q = some FsEntry.dir := by
      rw [fsLookup_eq_alLookup, fsSet_eq_alInsert, alLookup_alInsert_self]
    rcases hd with h | h <;> simp [fsIsFile, h1, h]
  · have h1 : fsLookup (fsSet fs d FsEntry.dir) q = fsLookup fs q := by
      rw [fsLookup_eq_alLookup, fsSet_eq_alInsert,
        alLookup_alInsert_ne _ _ _ _ hq, ← fsLookup_eq_alLookup]
    simp [fsIsFile, h1]

/-- Claim C8, counterexample: the claim fails as universally stated.
First, a directory at the workbook path: nothing resolves to an
existing file, yet `Path.exists()` holds and `load_workbook` fails with
an error other than `FileNotFoundError`.  Second, a regular file at the
output-directory path: `mkdir` runs before the existence check and
raises `FileExistsError` although the workbook is missing.  Third, the
workbook path naming the just-created output directory: after `mkdir`
the path exists and the failure again is not `FileNotFoundError`.
Fourth, a stale CSV file left at a target path: the call fails with
`FileNotFoundError` but that CSV file still exists at its target path
afterwards. -/
theorem C8_process_counterexample :
    (process ⟨[("wb", FsEntry.dir)]⟩ "wb" "out" Option.none Option.none).1
      ≠ Except.error PyErr.fileNotFoundError
    ∧ (process ⟨[("out", FsEntry.file (FileData.text []))]⟩ "wb" "out"
        Option.none Option.none).1 ≠ Except.error PyErr.fileNotFoundError
    ∧ (process ⟨[]⟩ "p" "p" Option.none Option.none).1
      ≠ Except.error PyErr.fileNotFoundError
    ∧ (process ⟨[("out/REMUNERAÇÃO RECEBIDA.csv",
          FsEntry.file (FileData.text ["stale"]))]⟩ "wb" "out"
        Option.none Option.none).1 = Except.error PyErr.fileNotFoundError
    ∧ fsIsFile (process ⟨[("out/REMUNERAÇÃO RECEBIDA.csv",
          FsEntry.file (FileData.text ["stale"]))]⟩ "wb" "out"
        Option.none Option.none).2 "out/REMUNERAÇÃO RECEBIDA.csv" = true := by
  refine ⟨by decide, by decide, by decide, by decide, by decide⟩

/-- Claim C8 (amended): when nothing exists at the workbook path, the
output-directory path does not hold a regular file (so its creation
succeeds), and the two paths differ, `process` fails with
`FileNotFoundError` and creates or overwrites no file: a regular file
sits at a path after the failed call exactly when one sat there before;
in particular none of the three CSV files exists at its target path
afterwards unless a stale one already existed before the call. -/
theorem C8_amended_source_not_found (fs : FS) (wbPath outDir : String)
    (sp ep : Option Period)
    (hwb : fsLookup fs wbPath = Option.none)
    (hout : fsLookup fs outDir = Option.none ∨ fsLookup fs outDir = some FsEntry.dir)
    (hne : wbPath ≠ outDir) :
    (process fs wbPath outDir sp ep).1 = Except.error PyErr.fileNotFoundError
    ∧ ∀ q, fsIsFile (process fs wbPath outDir sp ep).2 q = fsIsFile fs q := by
  rcases hout with h | h
  · have h2 : fsLookup (fsSet fs outDir FsEntry.dir) wbPath = Option.none := by
      rw [fsLookup_eq_alLookup, fsSet_eq_alInsert,
        alLookup_alInsert_ne _ _ _ _ hne, ← fsLookup_eq_alLookup]
      exact hwb
    have hp : process fs wbPath outDir sp ep
        = (Except.error PyErr.fileNotFoundError, fsSet fs outDir FsEntry.dir) := by
      simp only [process, fsMkdir, h, h2]
    rw [hp]
    exact ⟨rfl, fsIsFile_fsSet_dir fs outDir (Or.inl h)⟩
  · have hp : process fs wbPath outDir sp ep
        = (Except.error PyErr.fileNotFoundError, fs) := by
      simp only [process, fsMkdir, h, hwb]
    rw [hp]
    exact ⟨rfl, fun q => rfl⟩

/-- Claim C8 (amended), witness: on a filesystem holding only a
workbook at another path, processing a missing workbook path fails with
`FileNotFoundError` and afterwards no regular file sits at the
remuneration CSV target path. -/
theorem C8_amended_source_not_found_witness :
    (process ⟨[("other.xlsm", FsEntry.file (FileData.workbook ⟨[]⟩))]⟩
        "missing.xlsm" "out" Option.none Option.none).1
      = Except.error PyErr.fileNotFoundError
    ∧ fsIsFile (process ⟨[("other.xlsm", FsEntry.file (FileData.workbook ⟨[]⟩))]⟩
        "missing.xlsm" "out" Option.none Option.none).2
        "out/REMUNERAÇÃO RECEBIDA.csv" = false := by
  have h := C8_amended_source_not_found
    ⟨[("other.xlsm", FsEntry.file (FileData.workbook ⟨[]⟩))]⟩
    "missing.xlsm" "out" Option.none Option.none (by decide) (Or.inl (by decide))
    (by decide)
  exact ⟨h.1, by rw [h.2]; decide⟩

theorem Dec.val_eq_zero_iff (d : Dec) : d.val = 0 ↔ d.c = 0 := by
  rw [Dec.val, mul_eq_zero]
  constructor
  · rintro (h | h)
    · exact_mod_cast h
    · exact absurd h (zpow_ne_zero _ (by norm_num))
  · intro h
    exact Or.inl (by exact_mod_cast h)

theorem natStrAux_digits (fuel n : Nat) :
    ∀ c ∈ natStrAux fuel n, c.isDigit = true := by
  induction fuel generalizing n with
  | zero => intro c hc; simp [natStrAux] at hc
  | succ f ih =>
    intro c hc
    rw [natStrAux] at hc
    by_cases h : n < 10
    · rw [if_pos h] at hc
      rcases List.mem_singleton.mp hc with rfl
      rw [digitChar]
      interval_cases n <;> decide
    · rw [if_neg h] at hc
      rcases List.mem_append.mp hc with hm | hm
      · exact ih _ c hm
      · rcases List.mem_singleton.mp hm with rfl
        rw [digitChar]
        have : n % 10 < 10 := Nat.mod_lt n (by norm_num)
        interval_cases hmod : (n % 10) <;> decide

theorem natStr_chars_digits (n : Nat) :
    ∀ c ∈ (natStr n).data, c.isDigit = true := by
  intro c hc
  rw [natStr, List.asString] at hc
  exact natStrAux_digits _ _ c hc

theorem isDigit_ne_semi (c : Char) (h : c.isDigit = true) : (c != ';') = true := by
  simp only [bne_iff_ne, ne_eq]
  intro hc
  subst hc
  simp at h

theorem mesAno_no_semi (dt : PyDateTime) :
    ∀ c ∈ (formatMesAno dt).data, (c != ';') = true := by
  intro c hc
  rw [formatMesAno] at hc
  simp only [String.data_append] at hc
  rcases List.mem_append.mp hc with hm | hy
  · rcases List.mem_append.mp hm with hm2 | hs
    · by_cases h10 : dt.month < 10
      · rw [if_pos h10, String.data_append] at hm2
        rcases List.mem_append.mp hm2 with h0 | hd
        · rw [show ("0" : String).data = ['0'] by decide] at h0
          rcases List.mem_singleton.mp h0 with rfl
          decide
        · exact isDigit_ne_semi c (natStr_chars_digits _ c hd)
      · rw [if_neg h10] at hm2
        exact isDigit_ne_semi c (natStr_chars_digits _ c hm2)
    · rcases List.mem_singleton.mp hs with rfl
      decide
  · exact isDigit_ne_semi c (natStr_chars_digits _ c hy)

theorem takeWhile_append_semi (a : List Char) (b : List Char)
    (h : ∀ c ∈ a, (c != ';') = true) :
    (a ++ ';' :: b).takeWhile (fun c => c != ';') = a := by
  induction a with
  | nil => simp [List.takeWhile_cons]
  | cons x t ih =>
    rw [List.cons_append, List.takeWhile_cons, if_pos (h x (List.mem_cons_self x t)),
      ih (fun c hc => h c (List.mem_cons_of_mem x hc))]

theorem dataAsString (s : String) : s.data.asString = s := by
  cases s
  rfl

theorem periodField_data (s : String) (rest : List Char)
    (h : ∀ c ∈ s.data, (c != ';') = true) :
    ((s.data ++ ';' :: rest).takeWhile (fun c => c != ';')).asString = s := by
  rw [takeWhile_append_semi s.data rest h, dataAsString]

theorem hasRelevantData_eq_false_iff (rem prod : Option Dec)
    (he : List (String × Option Dec)) (adc : Option Dec) :
    hasRelevantData rem prod he adc = false
      ↔ ((∀ v ∈ [rem, prod, adc] ++ he.map (fun e => e.2),
            v = Option.none ∨ ∃ dv, v = some dv ∧ Dec.val dv = 0)
        ∨ (prod = Option.none ∧ (∀ v ∈ he.map (fun e => e.2), v = Option.none)
            ∧ adc = Option.none)) := by
  have hz : ∀ v : Option Dec,
      isNoneOrZero v = true ↔ (v = Option.none ∨ ∃ dv, v = some dv ∧ Dec.val dv = 0) := by
    intro v
    cases v with
    | none => simp [isNoneOrZero]
    | some dv => simp [isNoneOrZero, Dec.val_eq_zero_iff]
  have aux : ∀ v : Option Dec,
      ¬((!(isNoneOrZero v)) = true) ↔ isNoneOrZero v = true := by
    intro v
    cases h : isNoneOrZero v <;> simp [h]
  have tA : (([rem, prod, adc] ++ he.map (fun e => e.2)).any
        (fun v => !(isNoneOrZero v))) = false
      ↔ (∀ v ∈ [rem, prod, adc] ++ he.map (fun e => e.2),
          v = Option.none ∨ ∃ dv, v = some dv ∧ Dec.val dv = 0) := by
    rw [List.any_eq_false]
    constructor
    · intro h v hv
      exact (hz v).mp ((aux v).mp (h v hv))
    · intro h v hv
      exact (aux v).mpr ((hz v).mpr (h v hv))
  have tB : (prod.isNone && ((he.map (fun e => e.2)).all (fun v => v.isNone))
        && adc.isNone) = true
      ↔ (prod = Option.none ∧ (∀ v ∈ he.map (fun e => e.2), v = Option.none)
          ∧ adc = Option.none) := by
    simp [Bool.and_eq_true, List.all_eq_true, Option.isNone_iff_eq_none, and_assoc]
  simp only [hasRelevantData]
  by_cases h1 : (([rem, prod, adc] ++ he.map (fun e => e.2)).any
      (fun v => !(isNoneOrZero v))) = true
  · rw [if_neg (show ¬((!(([rem, prod, adc] ++ he.map (fun e => e.2)).any
        (fun v => !(isNoneOrZero v)))) = true) from by rw [h1]; decide)]
    by_cases h2 : (prod.isNone && ((he.map (fun e => e.2)).all (fun v => v.isNone))
        && adc.isNone) = true
    · rw [if_pos h2]
      exact iff_of_true rfl (Or.inr (tB.mp h2))
    · rw [if_neg h2]
      refine iff_of_false (by simp) ?_
      rintro (hA | hB)
      · rw [← tA] at hA
        rw [hA] at h1
        exact absurd h1 (by simp)
      · exact h2 (tB.mpr hB)
  · have hfalse : (([rem, prod, adc] ++ he.map (fun e => e.2)).any
        (fun v => !(isNoneOrZero v))) = false := by
      cases hh : (([rem, prod, adc] ++ he.map (fun e => e.2)).any
          (fun v => !(isNoneOrZero v)))
      · rfl
      · exact absurd hh h1
    rw [if_pos (show (!(([rem, prod, adc] ++ he.map (fun e => e.2)).any
        (fun v => !(isNoneOrZero v)))) = true from by rw [hfalse]; decide)]
    exact iff_of_true rfl (Or.inl (tA.mp hfalse))

theorem remuneracao_period_column (rows : List PlanilhaRow) :
    csvPeriodColumn ((writeRemuneracaoLines rows).tail)
      = rows.map (fun r => formatMesAno r.periodo) := by
  rw [writeRemuneracaoLines, List.tail_cons, csvPeriodColumn, List.map_map]
  refine List.map_congr_left ?_
  intro r _
  simp only [Function.comp]
  rw [show (remuneracaoLine r).data
      = (formatMesAno r.periodo).data
        ++ ';' :: ((formatDecimal r.remuneracao).data ++ (";N;N;N;N" : String).data)
    from by simp [remuneracaoLine, String.data_append]]
  rw [periodField_data _ _ (mesAno_no_semi r.periodo)]

theorem producao_period_column (rows : List PlanilhaRow) :
    csvPeriodColumn ((writeProducaoLines rows).tail)
      = rows.map (fun r => formatMesAno r.periodo) := by
  rw [writeProducaoLines, List.tail_cons, csvPeriodColumn, List.map_map]
  refine List.map_congr_left ?_
  intro r _
  simp only [Function.comp]
  rw [show (producaoLine r).data
      = (formatMesAno r.periodo).data
        ++ ';' :: ((formatDecimal r.producao).data ++ (";N;N;N;N" : String).data)
    from by simp [producaoLine, String.data_append]]
  rw [periodField_data _ _ (mesAno_no_semi r.periodo)]

theorem cartoes_period_column (labels : List String) (rows : List PlanilhaRow) :
    csvPeriodColumn ((writeCartoesLines labels rows).tail)
      = rows.map (fun r => formatMesAno r.periodo) := by
  rw [writeCartoesLines, List.tail_cons, csvPeriodColumn, List.map_map]
  refine List.map_congr_left ?_
  intro r _
  simp only [Function.comp]
  rw [show (planilhaCartoesLine labels r).data
      = (formatMesAno r.periodo).data
        ++ ';' :: (String.intercalate ";"
            (labels.map (fun lb => cartoesCell lb r))).data
    from by simp [planilhaCartoesLine, String.data_append]]
  rw [periodField_data _ _ (mesAno_no_semi r.periodo)]

/-- Claim C9: a spreadsheet row whose period cell is a datetime inside
the requested range is excluded from the output exactly when every
extracted value (remuneration, production, each HE formula, the ADC
formula) is absent or exactly zero, or when production, every HE
formula value and the ADC formula are all absent (so a row carrying
only a remuneration figure is dropped); and the three CSVs list the
same period column, in the same order, over whatever row list survives
the filter. -/
theorem C9_row_filter_and_common_periods :
    (∀ (periodIdx remIdx prodIdx adcIdx : Nat) (heCols : List (String × Nat))
        (sp ep : Option Period) (row : List CellVal) (d : PyDateTime),
      getCell row periodIdx = CellVal.dtime d →
      isWithinRange d sp ep = true →
      (processRow periodIdx remIdx prodIdx heCols adcIdx sp ep row = Option.none
        ↔ ((∀ v ∈ [toDecimal (getCell row remIdx), toDecimal (getCell row prodIdx),
                toDecimal (getCell row adcIdx)]
              ++ (heCols.foldl (fun acc lc =>
                    dictInsert acc lc.1 (toDecimal (getCell row lc.2))) []).map
                  (fun e => e.2),
              v = Option.none ∨ ∃ dv, v = some dv ∧ Dec.val dv = 0)
          ∨ (toDecimal (getCell row prodIdx) = Option.none
            ∧ (∀ v ∈ (heCols.foldl (fun acc lc =>
                  dictInsert acc lc.1 (toDecimal (getCell row lc.2))) []).map
                    (fun e => e.2), v = Option.none)
            ∧ toDecimal (getCell row adcIdx) = Option.none))))
    ∧ (∀ (rows : List PlanilhaRow) (labels : List String),
        csvPeriodColumn ((writeRemuneracaoLines rows).tail)
          = rows.map (fun r => formatMesAno r.periodo)
        ∧ csvPeriodColumn ((writeProducaoLines rows).tail)
          = rows.map (fun r => formatMesAno r.periodo)
        ∧ csvPeriodColumn ((writeCartoesLines labels rows).tail)
          = rows.map (fun r => formatMesAno r.periodo)) := by
  constructor
  · intro periodIdx remIdx prodIdx adcIdx heCols sp ep row d hdt hrange
    simp only [processRow, hdt, hrange, if_true]
    by_cases hrel : hasRelevantData (toDecimal (getCell row remIdx))
        (toDecimal (getCell row prodIdx))
        (heCols.foldl (fun acc lc =>
          dictInsert acc lc.1 (toDecimal (getCell row lc.2))) [])
        (toDecimal (getCell row adcIdx)) = true
    · rw [if_pos hrel]
      refine iff_of_false (by simp) ?_
      intro hOr
      rw [(hasRelevantData_eq_false_iff _ _ _ _).mpr hOr] at hrel
      exact absurd hrel (by simp)
    · have hfalse : hasRelevantData (toDecimal (getCell row remIdx))
          (toDecimal (getCell row prodIdx))
          (heCols.foldl (fun acc lc =>
            dictInsert acc lc.1 (toDecimal (getCell row lc.2))) [])
          (toDecimal (getCell row adcIdx)) = false := by
        cases hh : hasRelevantData (toDecimal (getCell row remIdx))
            (toDecimal (getCell row prodIdx))
            (heCols.foldl (fun acc lc =>
              dictInsert acc lc.1 (toDecimal (getCell row lc.2))) [])
            (toDecimal (getCell row adcIdx))
        · rfl
        · exact absurd hh hrel
      rw [if_neg hrel]
      exact iff_of_true rfl ((hasRelevantData_eq_false_iff _ _ _ _).mp hfalse)
  · intro rows labels
    exact ⟨remuneracao_period_column rows, producao_period_column rows,
      cartoes_period_column labels rows⟩

/-- Claim C9, witness: a row carrying only a remuneration figure (100
at the remuneration column, nothing else) inside an unbounded range is
dropped by the row filter. -/
theorem C9_row_filter_witness :
    processRow 0 1 2 [("HE 50%", 3)] 4 Option.none Option.none
      [CellVal.dtime ⟨2024, 1⟩, CellVal.int 100, CellVal.none, CellVal.none,
        CellVal.none] = Option.none := by
  have h := C9_row_filter_and_common_periods.1 0 1 2 4 [("HE 50%", 3)]
    Option.none Option.none
    [CellVal.dtime ⟨2024, 1⟩, CellVal.int 100, CellVal.none, CellVal.none,
      CellVal.none] ⟨2024, 1⟩ rfl rfl
  exact h.mpr (Or.inr ⟨rfl, by decide, rfl⟩)

theorem dropWhile_append_cases (p : Char → Bool) (u v : List Char) :
    (u ++ v).dropWhile p
      = if u.dropWhile p = [] then v.dropWhile p else u.dropWhile p ++ v := by
  induction u with
  | nil => simp
  | cons x t ih =>
    rw [List.cons_append, List.dropWhile_cons, List.dropWhile_cons]
    by_cases h : p x = true
    · rw [if_pos h, if_pos h, ih]
    · rw [if_neg h, if_neg h, if_neg (by simp), List.cons_append]

theorem rstrip_append_cases (t : Char) (a b : List Char) :
    rstripChar t (a ++ b)
      = if rstripChar t b = [] then rstripChar t a else a ++ rstripChar t b := by
  unfold rstripChar
  rw [List.reverse_append, dropWhile_append_cases]
  by_cases h : b.reverse.dropWhile (fun c => c = t) = []
  · rw [if_pos h, if_pos (by rw [h]; rfl)]
  · rw [if_neg h, if_neg (fun hh => h (by
      have := congrArg List.reverse hh
      rwa [List.reverse_reverse] at this))]
    rw [List.reverse_append, List.reverse_reverse]

theorem dropWhile_eq_self_of_all (p : Char → Bool) (l : List Char)
    (h : ∀ c ∈ l, p c = false) : l.dropWhile p = l := by
  cases l with
  | nil => rfl
  | cons x t =>
    rw [List.dropWhile_cons, if_neg (by rw [h x (List.mem_cons_self x t)]; simp)]

theorem rstrip_of_all_ne (t : Char) (l : List Char)
    (h : ∀ c ∈ l, ¬(c = t)) : rstripChar t l = l := by
  unfold rstripChar
  rw [dropWhile_eq_self_of_all _ _ (fun c hc => by
      simp only [decide_eq_false_iff_not]
      exact h c (List.mem_reverse.mp hc)),
    List.reverse_reverse]

theorem dropWhile_eq_nil_of_all (p : Char → Bool) (l : List Char)
    (h : ∀ c ∈ l, p c = true) : l.dropWhile p = [] := by
  induction l with
  | nil => rfl
  | cons x tl ih =>
    rw [List.dropWhile_cons, if_pos (h x (List.mem_cons_self x tl))]
    exact ih (fun c hc => h c (List.mem_cons_of_mem x hc))

theorem rstrip_of_all_eq (t : Char) (l : List Char)
    (h : ∀ c ∈ l, c = t) : rstripChar t l = [] := by
  unfold rstripChar
  rw [dropWhile_eq_nil_of_all _ _ (fun c hc => by
      simp only [decide_eq_true_eq]
      exact h c (List.mem_reverse.mp hc))]
  rfl

theorem map_no_dot (l : List Char) (h : ∀ c ∈ l, ¬(c = '.')) :
    l.map (fun c => if c = '.' then ',' else c) = l := by
  rw [List.map_congr_left (fun c hc => by rw [if_neg (h c hc)])]
  exact List.map_id l

theorem natStrChars_ne_nil (n : Nat) : natStrChars n ≠ [] := by
  rw [natStrChars, natStrAux]
  by_cases h : n < 10
  · rw [if_pos h]
    simp
  · rw [if_neg h]
    simp

theorem signed_append (P : Prop) [Decidable P] (l : List Char) :
    (if P then '-' :: l else l) = (if P then ['-'] else []) ++ l := by
  split <;> rfl

theorem rstrip_snoc_ne (t y : Char) (a : List Char) (h : ¬(y = t)) :
    rstripChar t (a ++ [y]) = a ++ [y] := by
  unfold rstripChar
  rw [List.reverse_append]
  show ((y :: a.reverse).dropWhile _).reverse = _
  rw [List.dropWhile_cons, if_neg (by simpa using h), List.reverse_cons,
    List.reverse_reverse]

theorem mem_rstrip (t c : Char) (l : List Char) (hc : c ∈ rstripChar t l) :
    c ∈ l := by
  unfold rstripChar at hc
  have h1 := List.mem_reverse.mp hc
  have h2 := (List.dropWhile_sublist (l := l.reverse) (fun x => x = t)).mem h1
  exact List.mem_reverse.mp h2

theorem pipeline_no_dot (text : List Char) (hno : ∀ c ∈ text, ¬(c = '.'))
    (hne : ¬(text = [])) :
    (if (if '.' ∈ text then rstripChar '.' (rstripChar '0' text) else text) = []
     then "0"
     else ((if '.' ∈ text then rstripChar '.' (rstripChar '0' text) else text).map
        (fun c => if c = '.' then ',' else c)).asString) = text.asString := by
  rw [if_neg (fun hm => hno '.' hm rfl), if_neg hne, map_no_dot _ hno]

theorem rstrip0_through_dot (pre fp : List Char) :
    rstripChar '0' (pre ++ '.' :: fp)
      = if rstripChar '0' fp = [] then pre ++ ['.']
        else pre ++ '.' :: rstripChar '0' fp := by
  have h : pre ++ '.' :: fp = (pre ++ ['.']) ++ fp := by simp
  rw [h, rstrip_append_cases]
  by_cases h0 : rstripChar '0' fp = []
  · rw [if_pos h0, if_pos h0, rstrip_snoc_ne _ _ _ (by decide)]
  · rw [if_neg h0, if_neg h0, List.append_assoc]
    rfl

theorem rstripDot_end (pre fp2 : List Char)
    (h2 : ∀ c ∈ fp2, ¬(c = '.')) (hne : ¬(fp2 = [])) :
    rstripChar '.' (pre ++ '.' :: fp2) = pre ++ '.' :: fp2 := by
  have h : pre ++ '.' :: fp2 = (pre ++ ['.']) ++ fp2 := by simp
  rw [h, rstrip_append_cases, if_neg (by rw [rstrip_of_all_ne _ _ h2]; exact hne),
    rstrip_of_all_ne _ _ h2]

theorem rstripDot_strip (pre : List Char) (hpre : ∀ c ∈ pre, ¬(c = '.')) :
    rstripChar '.' (pre ++ ['.']) = pre := by
  rw [rstrip_append_cases,
    if_pos (rstrip_of_all_eq '.' ['.'] (by intro c hc; simpa using hc)),
    rstrip_of_all_ne _ _ hpre]

theorem pipeline_with_frac (sgn ip fp : List Char)
    (hsgn : ∀ c ∈ sgn, c = '-') (hip : ∀ c ∈ ip, c.isDigit = true)
    (hipne : ¬(ip = [])) (hfp : ∀ c ∈ fp, c.isDigit = true) :
    (if (if '.' ∈ (sgn ++ ip) ++ '.' :: fp
          then rstripChar '.' (rstripChar '0' ((sgn ++ ip) ++ '.' :: fp))
          else (sgn ++ ip) ++ '.' :: fp) = []
     then "0"
     else ((if '.' ∈ (sgn ++ ip) ++ '.' :: fp
          then rstripChar '.' (rstripChar '0' ((sgn ++ ip) ++ '.' :: fp))
          else (sgn ++ ip) ++ '.' :: fp).map
        (fun c => if c = '.' then ',' else c)).asString)
      = (if rstripChar '0' fp = [] then (sgn ++ ip).asString
        else ((sgn ++ ip) ++ ',' :: rstripChar '0' fp).asString) := by
  have hA_ne_dot : ∀ c ∈ sgn ++ ip, ¬(c = '.') := by
    intro c hc
    rcases List.mem_append.mp hc with h | h
    · rw [hsgn c h]
      decide
    · intro hd
      subst hd
      have := hip _ h
      simp at this
  have hdot : '.' ∈ (sgn ++ ip) ++ '.' :: fp :=
    List.mem_append.mpr (Or.inr (List.mem_cons_self _ _))
  rw [if_pos hdot, rstrip0_through_dot]
  by_cases hfp0 : rstripChar '0' fp = []
  · have hne2 : ¬(sgn ++ ip = []) := by
      intro hh
      exact hipne (List.append_eq_nil.mp hh).2
    rw [if_pos hfp0, rstripDot_strip _ hA_ne_dot, if_neg hne2,
      map_no_dot _ hA_ne_dot, if_pos hfp0]
  · have hfp2 : ∀ c ∈ rstripChar '0' fp, ¬(c = '.') := by
      intro c hc hd
      subst hd
      have := hfp _ (mem_rstrip _ _ _ hc)
      simp at this
    rw [if_neg hfp0, rstripDot_end _ _ hfp2 hfp0]
    have hne3 : ¬((sgn ++ ip) ++ '.' :: rstripChar '0' fp = []) := by simp
    rw [if_neg hne3, if_neg hfp0, List.map_append, map_no_dot _ hA_ne_dot,
      List.map_cons, if_pos rfl, map_no_dot _ hfp2]

/-- Claim C7: the decimal rendering function of the spreadsheet
processor agrees, for every decimal value, with the specification rule
stated independently over the plain rendering (drop an exactly-zero
fractional part entirely, otherwise strip its trailing zero digits,
replace the decimal point by a comma), and renders an absent amount as
the literal zero. -/
theorem C7_format_decimal_shared_rule :
    (∀ d : Dec, formatDecimal (some d) = minimalCommaRender d)
    ∧ formatDecimal Option.none = "0" := by
  refine ⟨?_, rfl⟩
  intro d
  have hds_dig : ∀ c ∈ natStrChars d.c.natAbs, c.isDigit = true :=
    natStrAux_digits _ _
  have hds_ne : ¬(natStrChars d.c.natAbs = []) := natStrChars_ne_nil _
  have hsgn : ∀ c ∈ (if d.c < 0 then ['-'] else ([] : List Char)), c = '-' := by
    split
    · intro c hc
      simpa using hc
    · intro c hc
      simp at hc
  simp only [formatDecimal, minimalCommaRender]
  by_cases he : 0 ≤ d.e
  · by_cases hc0 : d.c = 0
    · have hF : formatF d
          = (if d.c < 0 then ['-'] else []) ++ natStrChars d.c.natAbs := by
        simp only [formatF]
        rw [if_pos he, if_pos hc0, signed_append]
      have hno : ∀ c ∈ (if d.c < 0 then ['-'] else ([] : List Char))
          ++ natStrChars d.c.natAbs, ¬(c = '.') := by
        intro c hc
        rcases List.mem_append.mp hc with h | h
        · rw [hsgn c h]
          decide
        · intro hd
          subst hd
          have := hds_dig _ h
          simp at this
      have hne : ¬((if d.c < 0 then ['-'] else ([] : List Char))
          ++ natStrChars d.c.natAbs = []) := by
        intro hh
        exact hds_ne (List.append_eq_nil.mp hh).2
      rw [hF, pipeline_no_dot _ hno hne, if_pos he, if_pos he, if_pos hc0]
      rw [show rstripChar '0' ([] : List Char) = [] from rfl]
      rw [if_pos rfl]
      exact congrArg List.asString (signed_append _ _).symm
    · have hF : formatF d
          = (if d.c < 0 then ['-'] else [])
            ++ (natStrChars d.c.natAbs ++ zeros d.e.toNat) := by
        simp only [formatF]
        rw [if_pos he, if_neg hc0, signed_append]
      have hno : ∀ c ∈ (if d.c < 0 then ['-'] else ([] : List Char))
          ++ (natStrChars d.c.natAbs ++ zeros d.e.toNat), ¬(c = '.') := by
        intro c hc
        rcases List.mem_append.mp hc with h | h
        · rw [hsgn c h]
          decide
        · rcases List.mem_append.mp h with h2 | h2
          · intro hd
            subst hd
            have := hds_dig _ h2
            simp at this
          · rw [List.eq_of_mem_replicate h2]
            decide
      have hne : ¬((if d.c < 0 then ['-'] else ([] : List Char))
          ++ (natStrChars d.c.natAbs ++ zeros d.e.toNat) = []) := by
        intro hh
        exact hds_ne (List.append_eq_nil.mp (List.append_eq_nil.mp hh).2).1
      rw [hF, pipeline_no_dot _ hno hne, if_pos he, if_pos he, if_neg hc0]
      rw [show rstripChar '0' ([] : List Char) = [] from rfl]
      rw [if_pos rfl]
      exact congrArg List.asString (signed_append _ _).symm
  · by_cases hk : (-d.e).toNat < (natStrChars d.c.natAbs).length
    · have hF : formatF d
          = ((if d.c < 0 then ['-'] else [])
              ++ (natStrChars d.c.natAbs).take
                  ((natStrChars d.c.natAbs).length - (-d.e).toNat))
            ++ '.' :: (natStrChars d.c.natAbs).drop
                  ((natStrChars d.c.natAbs).length - (-d.e).toNat) := by
        simp only [formatF]
        rw [if_neg he, if_pos hk, signed_append, List.append_assoc]
      have hip : ∀ c ∈ (natStrChars d.c.natAbs).take
          ((natStrChars d.c.natAbs).length - (-d.e).toNat), c.isDigit = true :=
        fun c hc => hds_dig c (List.take_subset _ _ hc)
      have hipne : ¬((natStrChars d.c.natAbs).take
          ((natStrChars d.c.natAbs).length - (-d.e).toNat) = []) := by
        simp only [List.take_eq_nil_iff]
        push_neg
        exact ⟨by omega, hds_ne⟩
      have hfp : ∀ c ∈ (natStrChars d.c.natAbs).drop
          ((natStrChars d.c.natAbs).length - (-d.e).toNat), c.isDigit = true :=
        fun c hc => hds_dig c (List.drop_subset _ _ hc)
      rw [hF, pipeline_with_frac _ _ _ hsgn hip hipne hfp, if_neg he, if_neg he,
        if_pos hk, if_pos hk]
      by_cases hfp0 : rstripChar '0' ((natStrChars d.c.natAbs).drop
          ((natStrChars d.c.natAbs).length - (-d.e).toNat)) = []
      · rw [if_pos hfp0, if_pos hfp0]
        exact congrArg List.asString (signed_append _ _).symm
      · rw [if_neg hfp0, if_neg hfp0]
        refine congrArg List.asString ?_
        rw [show (if d.c < 0 then
              '-' :: ((natStrChars d.c.natAbs).take
                  ((natStrChars d.c.natAbs).length - (-d.e).toNat)
                ++ ',' :: rstripChar '0' ((natStrChars d.c.natAbs).drop
                  ((natStrChars d.c.natAbs).length - (-d.e).toNat)))
            else ((natStrChars d.c.natAbs).take
                  ((natStrChars d.c.natAbs).length - (-d.e).toNat)
                ++ ',' :: rstripChar '0' ((natStrChars d.c.natAbs).drop
                  ((natStrChars d.c.natAbs).length - (-d.e).toNat))))
            = (if d.c < 0 then ['-'] else [])
              ++ ((natStrChars d.c.natAbs).take
                  ((natStrChars d.c.natAbs).length - (-d.e).toNat)
                ++ ',' :: rstripChar '0' ((natStrChars d.c.natAbs).drop
                  ((natStrChars d.c.natAbs).length - (-d.e).toNat)))
          from signed_append _ _, List.append_assoc]
    · have hF : formatF d
          = ((if d.c < 0 then ['-'] else []) ++ ['0'])
            ++ '.' :: (zeros ((-d.e).toNat - (natStrChars d.c.natAbs).length)
                ++ natStrChars d.c.natAbs) := by
        simp only [formatF]
        rw [if_neg he, if_neg hk, signed_append, List.append_assoc]
        rfl
      have hip : ∀ c ∈ ['0'], Char.isDigit c = true := by
        intro c hc
        rcases List.mem_singleton.mp hc with rfl
        decide
      have hipne : ¬((['0'] : List Char) = []) := by simp
      have hfp : ∀ c ∈ zeros ((-d.e).toNat - (natStrChars d.c.natAbs).length)
          ++ natStrChars d.c.natAbs, c.isDigit = true := by
        intro c hc
        rcases List.mem_append.mp hc with h | h
        · rw [List.eq_of_mem_replicate h]
          decide
        · exact hds_dig c h
      rw [hF, pipeline_with_frac _ _ _ hsgn hip hipne hfp, if_neg he, if_neg he,
        if_neg hk, if_neg hk]
      by_cases hfp0 : rstripChar '0'
          (zeros ((-d.e).toNat - (natStrChars d.c.natAbs).length)
            ++ natStrChars d.c.natAbs) = []
      · rw [if_pos hfp0, if_pos hfp0]
        exact congrArg List.asString (signed_append _ _).symm
      · rw [if_neg hfp0, if_neg hfp0]
        refine congrArg List.asString ?_
        rw [show (if d.c < 0 then
              '-' :: (['0'] ++ ',' :: rstripChar '0'
                  (zeros ((-d.e).toNat - (natStrChars d.c.natAbs).length)
                    ++ natStrChars d.c.natAbs))
            else (['0'] ++ ',' :: rstripChar '0'
                  (zeros ((-d.e).toNat - (natStrChars d.c.natAbs).length)
                    ++ natStrChars d.c.natAbs)))
            = (if d.c < 0 then ['-'] else [])
              ++ (['0'] ++ ',' :: rstripChar '0'
                  (zeros ((-d.e).toNat - (natStrChars d.c.natAbs).length)
                    ++ natStrChars d.c.natAbs))
          from signed_append _ _, List.append_assoc]

theorem numDigitsAux_bounds (fuel : ℕ) :
    ∀ n : ℕ, n < fuel →
      1 ≤ numDigitsAux fuel n ∧ n < 10 ^ numDigitsAux fuel n
        ∧ (0 < n → 10 ^ (numDigitsAux fuel n - 1) ≤ n) := by
  induction fuel with
  | zero => intro n hn; omega
  | succ f ih =>
    intro n hn
    rw [numDigitsAux]
    by_cases h : n < 10
    · rw [if_pos h]
      exact ⟨le_refl 1, by simpa using h, fun h0 => by simpa using h0⟩
    · rw [if_neg h]
      have h10 : 10 ≤ n := le_of_not_lt h
      have hdiv : n / 10 < f := by
        have h1 : n / 10 < n := Nat.div_lt_self (by omega) (by norm_num)
        omega
      obtain ⟨h1, h2, h3⟩ := ih (n / 10) hdiv
      refine ⟨by omega, ?_, fun _ => ?_⟩
      · have hlt : n < 10 ^ numDigitsAux f (n / 10) * 10 :=
          (Nat.div_lt_iff_lt_mul (by norm_num)).mp h2
        rw [pow_succ]
        exact hlt
      · have h3' := h3 (by omega)
        have hk : numDigitsAux f (n / 10) - 1 + 1 = numDigitsAux f (n / 10) := by
          omega
        have hstep : 10 ^ numDigitsAux f (n / 10) ≤ (n / 10) * 10 := by
          calc 10 ^ numDigitsAux f (n / 10)
              = 10 ^ (numDigitsAux f (n / 10) - 1) * 10 := by
                rw [← pow_succ, hk]
            _ ≤ (n / 10) * 10 := Nat.mul_le_mul_right 10 h3'
        have hle : (n / 10) * 10 ≤ n := Nat.div_mul_le_self n 10
        calc 10 ^ (numDigitsAux f (n / 10) + 1 - 1)
            = 10 ^ numDigitsAux f (n / 10) := by rw [Nat.add_sub_cancel]
          _ ≤ (n / 10) * 10 := hstep
          _ ≤ n := hle

theorem numDigits_bounds (n : ℕ) :
    1 ≤ numDigits n ∧ n < 10 ^ numDigits n
      ∧ (0 < n → 10 ^ (numDigits n - 1) ≤ n) :=
  numDigitsAux_bounds (n + 1) n (Nat.lt_succ_self n)

theorem floor_natCast_div (n m : ℕ) (hm : 0 < m) :
    ⌊(n : ℚ) / m⌋ = ((n / m : ℕ) : ℤ) := by
  have hmq : (0 : ℚ) < m := by exact_mod_cast hm
  rw [Int.floor_eq_iff]
  constructor
  · rw [le_div_iff hmq]
    exact_mod_cast Nat.div_mul_le_self n m
  · rw [div_lt_iff hmq]
    have h1 : n % m < m := Nat.mod_lt n hm
    have h2 : m * (n / m) + n % m = n := Nat.div_add_mod n m
    have : n < (n / m + 1) * m := by
      have hexp : (n / m + 1) * m = m * (n / m) + m := by ring
      omega
    exact_mod_cast this

theorem roundHEQ_intCast (n : ℤ) : roundHEQ ((n : ℚ)) = n := by
  simp [roundHEQ, Int.floor_intCast]

theorem roundDivHE_eq_roundHEQ (n m : ℕ) (hm : 0 < m) :
    (roundDivHE n m : ℤ) = roundHEQ ((n : ℚ) / m) := by
  have hmq : (0 : ℚ) < m := by exact_mod_cast hm
  simp only [roundDivHE, roundHEQ]
  rw [floor_natCast_div n m hm]
  have h2 : m * (n / m) + n % m = n := Nat.div_add_mod n m
  have hcast : ((m * (n / m) + n % m : ℕ) : ℚ) = (n : ℚ) := by
    exact_mod_cast congrArg (fun k : ℕ => (k : ℚ)) h2
  have hfrac : (n : ℚ) / m - ((n / m : ℕ) : ℤ) = ((n % m : ℕ) : ℚ) / m := by
    rw [eq_div_iff (ne_of_gt hmq), sub_mul, div_mul_cancel₀ _ (ne_of_gt hmq),
      Int.cast_natCast]
    push_cast at hcast
    linarith
  rw [hfrac]
  have hc1 : (((n % m : ℕ) : ℚ) / m < 1 / 2) = (2 * (n % m) < m) := by
    apply propext
    rw [div_lt_div_iff₀ hmq (by norm_num)]
    constructor
    · intro h
      have : ((2 * (n % m) : ℕ) : ℚ) < m := by push_cast; linarith
      exact_mod_cast this
    · intro h
      have : ((2 * (n % m) : ℕ) : ℚ) < m := by exact_mod_cast h
      push_cast at this
      linarith
  have hc2 : (1 / 2 < ((n % m : ℕ) : ℚ) / m) = (m < 2 * (n % m)) := by
    apply propext
    rw [div_lt_div_iff₀ (by norm_num) hmq]
    constructor
    · intro h
      have : (m : ℚ) < ((2 * (n % m) : ℕ) : ℚ) := by push_cast; linarith
      exact_mod_cast this
    · intro h
      have : (m : ℚ) < ((2 * (n % m) : ℕ) : ℚ) := by exact_mod_cast h
      push_cast at this
      linarith
  have hc3 : (((n / m : ℕ) : ℤ) % 2 = 0) = (n / m % 2 = 0) := by
    apply propext
    omega
  simp only [hc1, hc2, hc3]
  split_ifs <;> push_cast <;> ring

theorem ten_zpow_pos (e : ℤ) : (0 : ℚ) < (10 : ℚ) ^ e := zpow_pos (by norm_num) e

theorem ten_zpow_add (a b : ℤ) : (10 : ℚ) ^ (a + b) = (10 : ℚ) ^ a * (10 : ℚ) ^ b :=
  zpow_add₀ (by norm_num) a b

theorem ten_zpow_le_iff {a b : ℤ} : (10 : ℚ) ^ a ≤ (10 : ℚ) ^ b ↔ a ≤ b :=
  zpow_le_zpow_iff_right₀ (by norm_num)

theorem natCast_ten_pow (k : ℕ) : ((10 ^ k : ℕ) : ℚ) = (10 : ℚ) ^ (k : ℤ) := by
  push_cast [zpow_natCast]
  ring

theorem flog10_spec (q : ℚ) (hq : 0 < q) :
    (10 : ℚ) ^ flog10 q ≤ q ∧ q < (10 : ℚ) ^ (flog10 q + 1) := by
  have hnum : 0 < q.num := Rat.num_pos.mpr hq
  have hflog : flog10 q
      = (if (10 : ℚ) ^ ((numDigits q.num.natAbs : ℤ) - (numDigits q.den : ℤ)) ≤ q
          then (numDigits q.num.natAbs : ℤ) - (numDigits q.den : ℤ)
          else (numDigits q.num.natAbs : ℤ) - (numDigits q.den : ℤ) - 1) := rfl
  set N := q.num.natAbs with hN
  set D := q.den with hD
  set dN := numDigits N with hdN
  set dD := numDigits D with hdD
  have hN0 : 0 < N := Int.natAbs_pos.mpr (ne_of_gt hnum)
  have hD0 : 0 < D := q.pos
  obtain ⟨hN1, hNlt, hNge⟩ := numDigits_bounds N
  obtain ⟨hD1, hDlt, hDge⟩ := numDigits_bounds D
  have hNge := hNge hN0
  have hDge := hDge hD0
  have hDq : (0 : ℚ) < (D : ℚ) := by exact_mod_cast hD0
  have hNA : ((N : ℕ) : ℚ) = (q.num : ℚ) := by
    rw [hN, Int.cast_natAbs]
    exact congrArg (fun z : ℤ => (z : ℚ)) (abs_of_pos hnum)
  have hqeq : q = (N : ℚ) / (D : ℚ) := by
    rw [hNA, hD]
    exact (Rat.num_div_den q).symm
  have hNltQ : (N : ℚ) < (10 : ℚ) ^ (dN : ℤ) := by
    rw [← natCast_ten_pow]
    exact_mod_cast hNlt
  have hNgeQ : (10 : ℚ) ^ ((dN : ℤ) - 1) ≤ (N : ℚ) := by
    rw [show (dN : ℤ) - 1 = ((dN - 1 : ℕ) : ℤ) by push_cast [Nat.cast_sub hN1]; ring,
      ← natCast_ten_pow]
    exact_mod_cast hNge
  have hDltQ : (D : ℚ) < (10 : ℚ) ^ (dD : ℤ) := by
    rw [← natCast_ten_pow]
    exact_mod_cast hDlt
  have hDgeQ : (10 : ℚ) ^ ((dD : ℤ) - 1) ≤ (D : ℚ) := by
    rw [show (dD : ℤ) - 1 = ((dD - 1 : ℕ) : ℤ) by push_cast [Nat.cast_sub hD1]; ring,
      ← natCast_ten_pow]
    exact_mod_cast hDge
  have hupper : q < (10 : ℚ) ^ ((dN : ℤ) - (dD : ℤ) + 1) := by
    rw [hqeq, div_lt_iff₀ hDq]
    calc (N : ℚ)
        < (10 : ℚ) ^ (dN : ℤ) := hNltQ
      _ = (10 : ℚ) ^ ((dN : ℤ) - (dD : ℤ) + 1) * (10 : ℚ) ^ ((dD : ℤ) - 1) := by
          rw [← ten_zpow_add]
          congr 1
          ring
      _ ≤ (10 : ℚ) ^ ((dN : ℤ) - (dD : ℤ) + 1) * (D : ℚ) :=
          mul_le_mul_of_nonneg_left hDgeQ (le_of_lt (ten_zpow_pos _))
  have hlower : (10 : ℚ) ^ ((dN : ℤ) - (dD : ℤ) - 1) ≤ q := by
    rw [hqeq, le_div_iff₀ hDq]
    calc (10 : ℚ) ^ ((dN : ℤ) - (dD : ℤ) - 1) * (D : ℚ)
        ≤ (10 : ℚ) ^ ((dN : ℤ) - (dD : ℤ) - 1) * (10 : ℚ) ^ (dD : ℤ) :=
          mul_le_mul_of_nonneg_left (le_of_lt hDltQ) (le_of_lt (ten_zpow_pos _))
      _ = (10 : ℚ) ^ ((dN : ℤ) - 1) := by
          rw [← ten_zpow_add]
          congr 1
          ring
      _ ≤ (N : ℚ) := hNgeQ
  rw [hflog]
  by_cases hc : (10 : ℚ) ^ ((dN : ℤ) - (dD : ℤ)) ≤ q
  · rw [if_pos hc]
    exact ⟨hc, hupper⟩
  · rw [if_neg hc]
    refine ⟨hlower, ?_⟩
    rw [show (dN : ℤ) - (dD : ℤ) - 1 + 1 = (dN : ℤ) - (dD : ℤ) by ring]
    exact lt_of_not_le hc

theorem flog10_unique (q : ℚ) (e : ℤ) (h1 : (10 : ℚ) ^ e ≤ q) (h2 : q < (10 : ℚ) ^ (e + 1)) :
    flog10 q = e := by
  have hq : 0 < q := lt_of_lt_of_le (ten_zpow_pos e) h1
  obtain ⟨hs1, hs2⟩ := flog10_spec q hq
  by_contra hne
  rcases lt_or_gt_of_ne hne with hlt | hgt
  · have : (10 : ℚ) ^ (flog10 q + 1) ≤ (10 : ℚ) ^ e := ten_zpow_le_iff.mpr (by omega)
    linarith
  · have : (10 : ℚ) ^ (e + 1) ≤ (10 : ℚ) ^ (flog10 q) := ten_zpow_le_iff.mpr (by omega)
    linarith

theorem decSign_cases (c : ℤ) : decSign c = 1 ∨ decSign c = -1 := by
  unfold decSign
  split_ifs
  · exact Or.inr rfl
  · exact Or.inl rfl

theorem decSign_mul_natAbs (c : ℤ) : decSign c * (c.natAbs : ℤ) = c := by
  unfold decSign
  split_ifs <;> omega

theorem dec_val_signed (d : Dec) :
    d.val = ((decSign d.c : ℤ) : ℚ) * (d.c.natAbs : ℚ) * (10 : ℚ) ^ d.e := by
  unfold Dec.val
  have h : ((decSign d.c * (d.c.natAbs : ℤ) : ℤ) : ℚ) = ((d.c : ℤ) : ℚ) :=
    congrArg (fun z : ℤ => (z : ℚ)) (decSign_mul_natAbs d.c)
  rw [← h]
  push_cast
  rw [Int.cast_natAbs, Int.cast_abs]

theorem round28Q_ne (q : ℚ) (hq : q ≠ 0) :
    round28Q q = (if q < 0 then (-1 : ℚ) else 1)
      * ((roundHEQ (|q| * (10 : ℚ) ^ (27 - flog10 |q|)) : ℤ) : ℚ)
      * (10 : ℚ) ^ (flog10 |q| - 27) := by
  unfold round28Q
  rw [if_neg hq]

theorem round28Q_master (s : ℤ) (hs : s = 1 ∨ s = -1) (w : ℚ) (f e0 : ℤ)
    (h1 : (10 : ℚ) ^ f ≤ w) (h2 : w < (10 : ℚ) ^ (f + 1)) :
    round28Q ((s : ℚ) * w * (10 : ℚ) ^ e0)
      = (s : ℚ) * ((roundHEQ (w * (10 : ℚ) ^ (27 - f)) : ℤ) : ℚ) * (10 : ℚ) ^ (f + e0 - 27) := by
  have hw : 0 < w := lt_of_lt_of_le (ten_zpow_pos f) h1
  have hwe : 0 < w * (10 : ℚ) ^ e0 := mul_pos hw (ten_zpow_pos e0)
  have hflog : flog10 (w * (10 : ℚ) ^ e0) = f + e0 := by
    apply flog10_unique
    · rw [ten_zpow_add]
      exact mul_le_mul_of_nonneg_right h1 (le_of_lt (ten_zpow_pos e0))
    · rw [show f + e0 + 1 = (f + 1) + e0 by ring, ten_zpow_add]
      exact mul_lt_mul_of_pos_right h2 (ten_zpow_pos e0)
  have hexp : w * (10 : ℚ) ^ e0 * (10 : ℚ) ^ (27 - (f + e0)) = w * (10 : ℚ) ^ (27 - f) := by
    rw [mul_assoc, ← ten_zpow_add]
    congr 2
    ring
  rcases hs with rfl | rfl
  · have hq0 : ((1 : ℤ) : ℚ) * w * (10 : ℚ) ^ e0 ≠ 0 := by
      push_cast
      rw [one_mul]
      exact ne_of_gt hwe
    have habs : |((1 : ℤ) : ℚ) * w * (10 : ℚ) ^ e0| = w * (10 : ℚ) ^ e0 := by
      push_cast
      rw [one_mul]
      exact abs_of_pos hwe
    have hneg : ¬(((1 : ℤ) : ℚ) * w * (10 : ℚ) ^ e0 < 0) := by
      push_cast
      rw [one_mul]
      exact not_lt_of_gt hwe
    rw [round28Q_ne _ hq0, habs, hflog, hexp, if_neg hneg]
    push_cast
    ring
  · have hval : ((-1 : ℤ) : ℚ) * w * (10 : ℚ) ^ e0 = -(w * (10 : ℚ) ^ e0) := by
      push_cast
      ring
    have hq0 : ((-1 : ℤ) : ℚ) * w * (10 : ℚ) ^ e0 ≠ 0 := by
      rw [hval]
      exact neg_ne_zero.mpr (ne_of_gt hwe)
    have habs : |((-1 : ℤ) : ℚ) * w * (10 : ℚ) ^ e0| = w * (10 : ℚ) ^ e0 := by
      rw [hval, abs_neg]
      exact abs_of_pos hwe
    have hneg : ((-1 : ℤ) : ℚ) * w * (10 : ℚ) ^ e0 < 0 := by
      rw [hval]
      exact neg_lt_zero.mpr hwe
    rw [round28Q_ne _ hq0, habs, hflog, hexp, if_pos hneg]
    push_cast
    ring

theorem round28Q_zero : round28Q 0 = 0 := by
  unfold round28Q
  rw [if_pos rfl]

theorem roundCtx_small (d : Dec) (h : d.c.natAbs < 10 ^ 28) : roundCtx d = d := by
  unfold roundCtx
  exact if_pos h

theorem roundCtx_big (d : Dec) (h : ¬ d.c.natAbs < 10 ^ 28) :
    roundCtx d = ⟨decSign d.c * (roundDivHE d.c.natAbs (10 ^ (numDigits d.c.natAbs - 28)) : ℤ),
      d.e + (numDigits d.c.natAbs - 28 : ℕ)⟩ := by
  unfold roundCtx
  exact if_neg h

theorem roundCtx_val (d : Dec) : (roundCtx d).val = round28Q d.val := by
  by_cases hc0 : d.c = 0
  · have hval : d.val = 0 := by
      unfold Dec.val
      rw [hc0]
      push_cast
      ring
    rw [roundCtx_small d (by rw [hc0]; norm_num), hval, round28Q_zero]
  · have ha0 : 0 < d.c.natAbs := Int.natAbs_pos.mpr hc0
    obtain ⟨hd1, hd2, hd3⟩ := numDigits_bounds d.c.natAbs
    have hd3 := hd3 ha0
    have haltQ : (d.c.natAbs : ℚ) < (10 : ℚ) ^ ((numDigits d.c.natAbs : ℤ)) := by
      rw [← natCast_ten_pow]
      exact_mod_cast hd2
    have hageQ : (10 : ℚ) ^ ((numDigits d.c.natAbs : ℤ) - 1) ≤ (d.c.natAbs : ℚ) := by
      rw [show (numDigits d.c.natAbs : ℤ) - 1 = ((numDigits d.c.natAbs - 1 : ℕ) : ℤ) by
        push_cast [Nat.cast_sub hd1]; ring, ← natCast_ten_pow]
      exact_mod_cast hd3
    have hmaster := round28Q_master (decSign d.c) (decSign_cases d.c) (d.c.natAbs : ℚ)
      ((numDigits d.c.natAbs : ℤ) - 1) d.e hageQ
      (by rw [show (numDigits d.c.natAbs : ℤ) - 1 + 1 = (numDigits d.c.natAbs : ℤ) by ring]
          exact haltQ)
    rw [← dec_val_signed] at hmaster
    rw [hmaster]
    by_cases hbig : d.c.natAbs < 10 ^ 28
    · have hda28 : numDigits d.c.natAbs ≤ 28 := by
        by_contra hgt
        push_neg at hgt
        have h1 : (10 : ℕ) ^ 28 ≤ 10 ^ (numDigits d.c.natAbs - 1) :=
          Nat.pow_le_pow_right (by norm_num) (by omega)
        exact absurd (lt_of_le_of_lt (le_trans h1 hd3) hbig) (lt_irrefl _)
      have hz : (27 : ℤ) - ((numDigits d.c.natAbs : ℤ) - 1)
          = ((28 - numDigits d.c.natAbs : ℕ) : ℤ) := by
        push_cast [Nat.cast_sub hda28]
        ring
      have hint : (d.c.natAbs : ℚ) * (10 : ℚ) ^ ((27 : ℤ) - ((numDigits d.c.natAbs : ℤ) - 1))
          = (((d.c.natAbs * 10 ^ (28 - numDigits d.c.natAbs) : ℕ) : ℤ) : ℚ) := by
        rw [hz, ← natCast_ten_pow]
        push_cast
        rw [← Int.cast_abs, ← Int.cast_natAbs]
      rw [roundCtx_small d hbig, hint, roundHEQ_intCast, dec_val_signed]
      have hcomb : (10 : ℚ) ^ (((28 - numDigits d.c.natAbs : ℕ)) : ℤ)
          * (10 : ℚ) ^ ((numDigits d.c.natAbs : ℤ) - 1 + d.e - 27) = (10 : ℚ) ^ d.e := by
        rw [← ten_zpow_add]
        congr 1
        push_cast [Nat.cast_sub hda28]
        ring
      push_cast
      rw [← Int.cast_abs, ← Int.cast_natAbs,
        ← zpow_natCast (10 : ℚ) (28 - numDigits d.c.natAbs)]
      linear_combination (-((decSign d.c : ℚ) * (d.c.natAbs : ℚ))) * hcomb
    · have hda28 : 28 < numDigits d.c.natAbs := by
        by_contra hle
        push_neg at hle
        have h1 : (10 : ℕ) ^ (numDigits d.c.natAbs) ≤ 10 ^ 28 :=
          Nat.pow_le_pow_right (by norm_num) hle
        exact absurd (lt_of_lt_of_le hd2 h1) hbig
      have hpk : 0 < 10 ^ (numDigits d.c.natAbs - 28) := Nat.pow_pos (by norm_num)
      have harg : (d.c.natAbs : ℚ) * (10 : ℚ) ^ ((27 : ℤ) - ((numDigits d.c.natAbs : ℤ) - 1))
          = (d.c.natAbs : ℚ) / (((10 ^ (numDigits d.c.natAbs - 28) : ℕ)) : ℚ) := by
        rw [natCast_ten_pow, div_eq_mul_inv, ← zpow_neg]
        congr 1
        push_cast [Nat.cast_sub (le_of_lt hda28)]
        ring
      rw [roundCtx_big d hbig, harg, ← roundDivHE_eq_roundHEQ _ _ hpk]
      unfold Dec.val
      push_cast
      rw [show d.e + ((numDigits d.c.natAbs - 28 : ℕ) : ℤ)
          = (numDigits d.c.natAbs : ℤ) - 1 + d.e - 27 by
        push_cast [Nat.cast_sub (le_of_lt hda28)]
        ring]

theorem zpow_toNat_mul (u v : ℤ) (h : v ≤ u) :
    (10 : ℚ) ^ ((u - v).toNat) * (10 : ℚ) ^ v = (10 : ℚ) ^ u := by
  rw [← zpow_natCast (10 : ℚ) ((u - v).toNat), Int.toNat_of_nonneg (by omega), ← ten_zpow_add]
  congr 1
  ring

theorem ctxAdd_val (x y : Dec) : (ctxAdd x y).val = round28Q (x.val + y.val) := by
  unfold ctxAdd
  rw [roundCtx_val]
  congr 1
  show ((x.c * (10 : ℤ) ^ (x.e - min x.e y.e).toNat
      + y.c * (10 : ℤ) ^ (y.e - min x.e y.e).toNat : ℤ) : ℚ)
      * (10 : ℚ) ^ (min x.e y.e) = x.val + y.val
  unfold Dec.val
  push_cast
  rw [add_mul, mul_assoc, mul_assoc, zpow_toNat_mul _ _ (min_le_left x.e y.e),
    zpow_toNat_mul _ _ (min_le_right x.e y.e)]

theorem div_val_signed (x y : Dec) (hy : y.c ≠ 0) :
    x.val / y.val = ((decSign x.c * decSign y.c : ℤ) : ℚ)
      * ((x.c.natAbs : ℚ) / (y.c.natAbs : ℚ)) * (10 : ℚ) ^ (x.e - y.e) := by
  have hB0 : (0 : ℚ) < (y.c.natAbs : ℚ) := by
    exact_mod_cast Int.natAbs_pos.mpr hy
  rw [dec_val_signed x, dec_val_signed y,
    zpow_sub₀ (by norm_num : (10 : ℚ) ≠ 0)]
  rcases decSign_cases x.c with hsx | hsx <;> rcases decSign_cases y.c with hsy | hsy <;>
    rw [hsx, hsy] <;> push_cast <;> field_simp

theorem ctxDivCore_val (A B : ℕ) (hA0 : 0 < A) (hB0 : 0 < B) (s : ℤ) (hs : s = 1 ∨ s = -1)
    (xe ye : ℤ) :
    (if A * 10 ^ ((28 + (numDigits B : ℤ) - (numDigits A : ℤ)).toNat)
        / (B * 10 ^ ((-(28 + (numDigits B : ℤ) - (numDigits A : ℤ))).toNat)) < 10 ^ 28
      then (⟨s * (roundDivHE (A * 10 ^ ((28 + (numDigits B : ℤ) - (numDigits A : ℤ)).toNat))
              (B * 10 ^ ((-(28 + (numDigits B : ℤ) - (numDigits A : ℤ))).toNat)) : ℤ),
            xe - ye - (28 + (numDigits B : ℤ) - (numDigits A : ℤ))⟩ : Dec)
      else ⟨s * (roundDivHE (A * 10 ^ ((28 + (numDigits B : ℤ) - (numDigits A : ℤ)).toNat))
              (10 * (B * 10 ^ ((-(28 + (numDigits B : ℤ) - (numDigits A : ℤ))).toNat))) : ℤ),
            xe - ye - (28 + (numDigits B : ℤ) - (numDigits A : ℤ)) + 1⟩).val
      = round28Q ((s : ℚ) * ((A : ℚ) / (B : ℚ)) * (10 : ℚ) ^ (xe - ye)) := by
  set dA := numDigits A with hdA
  set dB := numDigits B with hdB
  set sh : ℤ := 28 + (dB : ℤ) - (dA : ℤ) with hsh
  set N := A * 10 ^ sh.toNat with hNdef
  set M := B * 10 ^ ((-sh).toNat) with hMdef
  obtain ⟨hA1, hAlt, hAge⟩ := numDigits_bounds A
  obtain ⟨hB1, hBlt, hBge⟩ := numDigits_bounds B
  have hAge := hAge hA0
  have hBge := hBge hB0
  have hAq : (0 : ℚ) < (A : ℚ) := by exact_mod_cast hA0
  have hBq : (0 : ℚ) < (B : ℚ) := by exact_mod_cast hB0
  have hM0 : 0 < M := by
    rw [hMdef]
    exact Nat.mul_pos hB0 (Nat.pow_pos (by norm_num))
  have hMq : (0 : ℚ) < (M : ℚ) := by exact_mod_cast hM0
  have hAltQ : (A : ℚ) < (10 : ℚ) ^ (dA : ℤ) := by
    rw [← natCast_ten_pow]
    exact_mod_cast hAlt
  have hAgeQ : (10 : ℚ) ^ ((dA : ℤ) - 1) ≤ (A : ℚ) := by
    rw [show (dA : ℤ) - 1 = ((dA - 1 : ℕ) : ℤ) by push_cast [Nat.cast_sub hA1]; ring,
      ← natCast_ten_pow]
    exact_mod_cast hAge
  have hBltQ : (B : ℚ) < (10 : ℚ) ^ (dB : ℤ) := by
    rw [← natCast_ten_pow]
    exact_mod_cast hBlt
  have hBgeQ : (10 : ℚ) ^ ((dB : ℤ) - 1) ≤ (B : ℚ) := by
    rw [show (dB : ℤ) - 1 = ((dB - 1 : ℕ) : ℤ) by push_cast [Nat.cast_sub hB1]; ring,
      ← natCast_ten_pow]
    exact_mod_cast hBge
  have hNM : (N : ℚ) / (M : ℚ) = ((A : ℚ) / (B : ℚ)) * (10 : ℚ) ^ sh := by
    by_cases hpos : 0 ≤ sh
    · have h1 : (-sh).toNat = 0 := by omega
      rw [hNdef, hMdef, h1, pow_zero, mul_one]
      push_cast
      rw [← zpow_natCast (10 : ℚ) sh.toNat, Int.toNat_of_nonneg hpos]
      field_simp
    · have h1 : sh.toNat = 0 := by omega
      rw [hNdef, hMdef, h1, pow_zero, mul_one]
      push_cast
      rw [← zpow_natCast (10 : ℚ) ((-sh).toNat), Int.toNat_of_nonneg (by omega), zpow_neg]
      field_simp
  have hABlow : (10 : ℚ) ^ ((dA : ℤ) - 1 - (dB : ℤ)) < (A : ℚ) / (B : ℚ) := by
    rw [lt_div_iff₀ hBq]
    calc (10 : ℚ) ^ ((dA : ℤ) - 1 - (dB : ℤ)) * (B : ℚ)
        < (10 : ℚ) ^ ((dA : ℤ) - 1 - (dB : ℤ)) * (10 : ℚ) ^ (dB : ℤ) :=
          mul_lt_mul_of_pos_left hBltQ (ten_zpow_pos _)
      _ = (10 : ℚ) ^ ((dA : ℤ) - 1) := by
          rw [← ten_zpow_add]
          congr 1
          ring
      _ ≤ (A : ℚ) := hAgeQ
  have hABhigh : (A : ℚ) / (B : ℚ) < (10 : ℚ) ^ ((dA : ℤ) - (dB : ℤ) + 1) := by
    rw [div_lt_iff₀ hBq]
    calc (A : ℚ)
        < (10 : ℚ) ^ (dA : ℤ) := hAltQ
      _ = (10 : ℚ) ^ ((dA : ℤ) - (dB : ℤ) + 1) * (10 : ℚ) ^ ((dB : ℤ) - 1) := by
          rw [← ten_zpow_add]
          congr 1
          ring
      _ ≤ (10 : ℚ) ^ ((dA : ℤ) - (dB : ℤ) + 1) * (B : ℚ) :=
          mul_le_mul_of_nonneg_left hBgeQ (le_of_lt (ten_zpow_pos _))
  have hlow : (10 : ℚ) ^ (27 : ℤ) < (N : ℚ) / (M : ℚ) := by
    rw [hNM]
    calc (10 : ℚ) ^ (27 : ℤ)
        = (10 : ℚ) ^ ((dA : ℤ) - 1 - (dB : ℤ)) * (10 : ℚ) ^ sh := by
          rw [← ten_zpow_add]
          congr 1
          rw [hsh]
          ring
      _ < ((A : ℚ) / (B : ℚ)) * (10 : ℚ) ^ sh :=
          mul_lt_mul_of_pos_right hABlow (ten_zpow_pos _)
  have hhigh : (N : ℚ) / (M : ℚ) < (10 : ℚ) ^ (29 : ℤ) := by
    rw [hNM]
    calc ((A : ℚ) / (B : ℚ)) * (10 : ℚ) ^ sh
        < (10 : ℚ) ^ ((dA : ℤ) - (dB : ℤ) + 1) * (10 : ℚ) ^ sh :=
          mul_lt_mul_of_pos_right hABhigh (ten_zpow_pos _)
      _ = (10 : ℚ) ^ (29 : ℤ) := by
          rw [← ten_zpow_add]
          congr 1
          rw [hsh]
          ring
  have hconv : (s : ℚ) * ((A : ℚ) / (B : ℚ)) * (10 : ℚ) ^ (xe - ye)
      = (s : ℚ) * ((N : ℚ) / (M : ℚ)) * (10 : ℚ) ^ (xe - ye - sh) := by
    rw [hNM]
    rw [show (10 : ℚ) ^ (xe - ye) = (10 : ℚ) ^ sh * (10 : ℚ) ^ (xe - ye - sh) by
      rw [← ten_zpow_add]; congr 1; ring]
    ring
  rw [hconv]
  by_cases hbr : N / M < 10 ^ 28
  · rw [if_pos hbr]
    have hQlt : (N : ℚ) / (M : ℚ) < (10 : ℚ) ^ ((27 : ℤ) + 1) := by
      have hfl : (N : ℚ) / (M : ℚ) < ((N / M : ℕ) : ℚ) + 1 := by
        have h1 := Int.lt_floor_add_one ((N : ℚ) / (M : ℚ))
        rw [floor_natCast_div N M hM0] at h1
        exact_mod_cast h1
      have h2 : ((N / M : ℕ) : ℚ) + 1 ≤ ((10 ^ 28 : ℕ) : ℚ) := by
        exact_mod_cast hbr
      calc (N : ℚ) / (M : ℚ) < ((N / M : ℕ) : ℚ) + 1 := hfl
        _ ≤ ((10 ^ 28 : ℕ) : ℚ) := h2
        _ = (10 : ℚ) ^ ((27 : ℤ) + 1) := by
            rw [natCast_ten_pow]
            norm_num
    have hmaster := round28Q_master s hs ((N : ℚ) / (M : ℚ)) 27 (xe - ye - sh)
      (le_of_lt hlow) hQlt
    rw [hmaster]
    rw [show ((27 : ℤ) - 27) = 0 by norm_num, zpow_zero, mul_one,
      ← roundDivHE_eq_roundHEQ N M hM0]
    unfold Dec.val
    push_cast
    rw [show (27 : ℤ) + (xe - ye - sh) - 27 = xe - ye - sh by ring]
  · rw [if_neg hbr]
    have hQge : (10 : ℚ) ^ (28 : ℤ) ≤ (N : ℚ) / (M : ℚ) := by
      have h1 : ((10 ^ 28 : ℕ) : ℚ) ≤ ((N / M : ℕ) : ℚ) := by
        exact_mod_cast Nat.le_of_not_lt hbr
      have h2 : (((N / M : ℕ) : ℤ) : ℚ) ≤ (N : ℚ) / (M : ℚ) := by
        rw [← floor_natCast_div N M hM0]
        exact Int.floor_le _
      calc (10 : ℚ) ^ (28 : ℤ) = ((10 ^ 28 : ℕ) : ℚ) := by
            rw [natCast_ten_pow]
            norm_num
        _ ≤ ((N / M : ℕ) : ℚ) := h1
        _ ≤ (N : ℚ) / (M : ℚ) := by exact_mod_cast h2
    have hQlt : (N : ℚ) / (M : ℚ) < (10 : ℚ) ^ ((28 : ℤ) + 1) := by
      calc (N : ℚ) / (M : ℚ) < (10 : ℚ) ^ (29 : ℤ) := hhigh
        _ = (10 : ℚ) ^ ((28 : ℤ) + 1) := by norm_num
    have hmaster := round28Q_master s hs ((N : ℚ) / (M : ℚ)) 28 (xe - ye - sh)
      hQge hQlt
    rw [hmaster]
    have h10M : 0 < 10 * M := by omega
    have harg : (N : ℚ) / (M : ℚ) * (10 : ℚ) ^ ((28 : ℤ) - 28 - 1)
        = (N : ℚ) / ((10 * M : ℕ) : ℚ) := by
      rw [show ((28 : ℤ) - 28 - 1) = -1 by norm_num]
      push_cast
      rw [zpow_neg]
      field_simp
      exact Or.inl (by ring)
    rw [show ((27 : ℤ) - 28) = (28 : ℤ) - 28 - 1 by norm_num, harg,
      ← roundDivHE_eq_roundHEQ N (10 * M) h10M]
    unfold Dec.val
    push_cast
    rw [show (28 : ℤ) + (xe - ye - sh) - 27 = xe - ye - sh + 1 by ring]

theorem ctxDiv_val (x y : Dec) (hy : y.c ≠ 0) :
    (ctxDiv x y).val = round28Q (x.val / y.val) := by
  by_cases hx : x.c = 0
  · have hx0 : x.val = 0 := by
      unfold Dec.val
      rw [hx]
      push_cast
      ring
    have hz : ctxDiv x y = ⟨0, 0⟩ := by
      unfold ctxDiv
      exact if_pos (Or.inl hx)
    rw [hz, hx0, zero_div, round28Q_zero]
    unfold Dec.val
    push_cast
    ring
  · have hcond : ¬(x.c = 0 ∨ y.c = 0) := by
      intro h
      rcases h with h | h
      · exact hx h
      · exact hy h
    have hsprod : decSign x.c * decSign y.c = 1 ∨ decSign x.c * decSign y.c = -1 := by
      rcases decSign_cases x.c with h1 | h1 <;> rcases decSign_cases y.c with h2 | h2 <;>
        rw [h1, h2] <;> norm_num
    rw [div_val_signed x y hy, show ctxDiv x y = _ from by unfold ctxDiv; rw [if_neg hcond]]
    exact ctxDivCore_val x.c.natAbs y.c.natAbs (Int.natAbs_pos.mpr hx) (Int.natAbs_pos.mpr hy)
      (decSign x.c * decSign y.c) hsprod x.e y.e

theorem dec_val_int0 (n : ℤ) : (Dec.mk n 0).val = (n : ℚ) := by
  unfold Dec.val
  rw [zpow_zero, mul_one]

/-- C10 counterexample: the time-of-day cell 00:01:00 does not map to the
exact decimal hour count 0 + 1/60 + 0/3600, because Python Decimal
division under the default context rounds the quotient 1/60 to 28
significant digits (half to even). -/
theorem C10_to_decimal_counterexample :
    (toDecimal (CellVal.time 0 1 0)).map Dec.val ≠ some ((0 : ℚ) + 1 / 60 + 0 / 3600) := by
  have h : toDecimal (CellVal.time 0 1 0) = some ⟨1666666666666666666666666667, -29⟩ := by
    decide
  rw [h]
  intro hEq
  have hval : (Dec.mk 1666666666666666666666666667 (-29)).val
      = (0 : ℚ) + 1 / 60 + 0 / 3600 := Option.some.inj (by simpa using hEq)
  unfold Dec.val at hval
  rw [show (-29 : ℤ) = -((29 : ℕ) : ℤ) by norm_num, zpow_neg, zpow_natCast] at hval
  norm_num at hval

/-- C10, amended: `_to_decimal` is total on cell values and never raises;
`None` maps to `None`; a `Decimal` is returned unchanged; an int maps to
the Decimal with its value at exponent zero; a float parses its string
form; a time-of-day value maps to the default-context result of
`hour + minute/60 + second/3600`, i.e. the exact rationals rounded to 28
significant digits half to even at each Decimal operation; a timedelta
maps to the default-context quotient `total_seconds()/3600`; a datetime
yields `None` (its string form never parses as a decimal literal); any
other value parses its string form with `None` on failure; and a `None`
result renders as the literal `0` in the CSVs. -/
theorem C10_to_decimal_amended :
    toDecimal CellVal.none = Option.none
    ∧ (∀ d : Dec, toDecimal (CellVal.dec d) = some d)
    ∧ (∀ n : ℤ, toDecimal (CellVal.int n) = some ⟨n, 0⟩)
    ∧ (∀ s : String, toDecimal (CellVal.float s) = parseDec s)
    ∧ (∀ h m s : ℕ, ∃ dv : Dec, toDecimal (CellVal.time h m s) = some dv
        ∧ dv.val = round28Q (round28Q ((h : ℚ) + round28Q ((m : ℚ) / 60))
            + round28Q ((s : ℚ) / 3600)))
    ∧ (∀ ts : Dec, ∃ dv : Dec, toDecimal (CellVal.timedelta ts) = some dv
        ∧ dv.val = round28Q (ts.val / 3600))
    ∧ (∀ dt : PyDateTime, toDecimal (CellVal.dtime dt) = Option.none)
    ∧ (∀ s : String, toDecimal (CellVal.str s) = parseDec s)
    ∧ formatDecimal Option.none = "0" := by
  refine ⟨rfl, fun d => rfl, fun n => rfl, fun s => rfl, ?_, ?_, fun dt => rfl, fun s => rfl,
    rfl⟩
  · intro h m s
    refine ⟨_, rfl, ?_⟩
    rw [ctxAdd_val, ctxAdd_val,
      ctxDiv_val (Dec.mk (m : ℤ) 0) (Dec.mk 60 0) (by decide),
      ctxDiv_val (Dec.mk (s : ℤ) 0) (Dec.mk 3600 0) (by decide),
      dec_val_int0, dec_val_int0, dec_val_int0, dec_val_int0, dec_val_int0]
    push_cast
    rfl
  · intro ts
    refine ⟨_, rfl, ?_⟩
    rw [ctxDiv_val ts (Dec.mk 3600 0) (by decide), dec_val_int0]
    push_cast
    rfl
